import Mathlib

/-!
ir-usb: script player and interactive session.

A shallow embedding of `src/ir-usb.cpp`: the `-y` (script) and `-t` (interactive)
branches of `main`, together with the C library calls they rely on (`fgets`,
`strcspn`, `strcmp`, `strlen`, `isxdigit`, `strtoul`, `printf("%04lX")`), and the raw
modes: the `-s` (send) branch, and the receive branch with `test_callback`, as a
transition system whose steps are the statements of the two flows.

Input streams (the script file, standard input) are lists of characters still to be
read, one `Char` for each C `char`.  What a run does is recorded as a list of events:
sleeps, calls of `SendNecSignal` and diagnostics written to `stderr` (the interactive
prompt included).  The value returned by the `k`-th call of `SendNecSignal` is supplied
by a function `dev : Nat → Bool`.
-/

namespace IrUsb

/-! ## C library -/

/-- The terminating byte of a C string. -/
def NUL : Char := Char.ofNat 0

/-- The characters `fgets` stores when at most `k` characters may still be read:
it stops after a newline, at end of input, or when `k` characters were stored.
The second component is the input left unread. -/
def fgetsAux : Nat → List Char → List Char × List Char
  | 0, s => ([], s)
  | _ + 1, [] => ([], [])
  | k + 1, c :: s =>
    if c = '\n' then ([c], s)
    else ((c :: (fgetsAux k s).1), (fgetsAux k s).2)

/-- `fgets(buf, n, stream)`: `none` (NULL) at end of input, otherwise the characters
stored in `buf` (at most `n - 1`) and the input left unread. -/
def fgets (n : Nat) (s : List Char) : Option (List Char × List Char) :=
  match s with
  | [] => none
  | _ :: _ => some (fgetsAux (n - 1) s)

/-- The C string held in a buffer: the characters before the first NUL byte. -/
def cstr (buf : List Char) : List Char :=
  buf.takeWhile (fun c => c != NUL)

/-- `strcspn(s, reject)`: length of the initial segment of `s` free of `reject`. -/
def strcspn (s reject : List Char) : Nat :=
  (s.takeWhile (fun c => !reject.contains c)).length

/-- `buf[strcspn(buf, "\n")] = 0`: the C string in `buf` cut at its first newline. -/
def stripNewline (buf : List Char) : List Char :=
  (cstr buf).take (strcspn (cstr buf) ['\n'])

/-- `isxdigit` in the C locale. -/
def isxdigit (c : Char) : Bool :=
  ('0' ≤ c && c ≤ '9') || ('a' ≤ c && c ≤ 'f') || ('A' ≤ c && c ≤ 'F')

/-- `isspace` in the C locale. -/
def isspace (c : Char) : Bool :=
  c = ' ' || (9 ≤ c.toNat && c.toNat ≤ 13)

/-- Value of a base-16 digit, `none` for any other character. -/
def hexVal (c : Char) : Option Nat :=
  if '0' ≤ c ∧ c ≤ '9' then some (c.toNat - 48)
  else if 'a' ≤ c ∧ c ≤ 'f' then some (c.toNat - 87)
  else if 'A' ≤ c ∧ c ≤ 'F' then some (c.toNat - 55)
  else none

/-- Largest `unsigned long` (LP64). -/
def ULONG_MAX : Nat := 2 ^ 64 - 1

/-- The digit loop of `strtoul`: accumulates base-16 digits and returns the value
with the first character that is not a digit and everything after it. -/
def strtoulDigits (acc : Nat) : List Char → Nat × List Char
  | [] => (acc, [])
  | c :: s =>
    match hexVal c with
    | some d => strtoulDigits (acc * 16 + d) s
    | none => (acc, c :: s)

/-- Skips the optional `0x` / `0X` prefix that `strtoul` accepts in base 16 (only
when a digit follows it). -/
def skip0x (s : List Char) : List Char :=
  match s with
  | '0' :: x :: d :: t =>
    if (x = 'x' ∨ x = 'X') ∧ (hexVal d).isSome then d :: t else s
  | _ => s

/-- `strtoul(nptr, &endptr, 16)`: the value and the text `endptr` points at.  Leading
white space, an optional sign and an optional `0x` prefix are accepted; without any
digit the value is 0 and `endptr` is `nptr`; a value that does not fit saturates. -/
def strtoul16 (nptr : List Char) : Nat × List Char :=
  let s := nptr.dropWhile isspace
  let neg := s.head? = some '-'
  let s := if s.head? = some '-' ∨ s.head? = some '+' then s.tail else s
  let s := skip0x s
  match s with
  | [] => (0, nptr)
  | c :: _ =>
    if (hexVal c).isSome then
      let r := strtoulDigits 0 s
      (if r.1 > ULONG_MAX then ULONG_MAX
       else if neg then (2 ^ 64 - r.1) % 2 ^ 64 else r.1, r.2)
    else (0, nptr)

/-- Upper-case base-16 digit character of a value below 16. -/
def hexDigitUpper (d : Nat) : Char :=
  if d < 10 then Char.ofNat (48 + d) else Char.ofNat (55 + d)

/-- Upper-case base-16 digits of `v`, most significant first; `fuel` bounds the
number of digits produced after the first. -/
def toHexUpper : Nat → Nat → List Char
  | 0, v => [hexDigitUpper (v % 16)]
  | fuel + 1, v =>
    if v < 16 then [hexDigitUpper v]
    else toHexUpper fuel (v / 16) ++ [hexDigitUpper (v % 16)]

/-- `printf("%04lX", v)`: upper-case hexadecimal, padded with zeros to 4 digits. -/
def fmt04X (v : Nat) : List Char :=
  let ds := toHexUpper v v
  List.replicate (4 - ds.length) '0' ++ ds

/-! ## Events -/

/-- The diagnostics the program writes to `stderr` in the two modes. -/
inductive Msg where
  /-- The interactive prompt `>:`. -/
  | prompt
  /-- Interactive mode: `INFO: Must be 4 hex digits long`. -/
  | lengthInfo
  /-- Script mode: `ERROR: Must be 4 hex digits long`. -/
  | lengthError
  /-- Both modes: `ERROR: non-hex chars used`. -/
  | charsetError
  /-- Both modes: `ERROR: invalid hex format`. -/
  | formatError
  /-- Both modes: `ERROR: value exceeds 16 bits`. -/
  | rangeError
  /-- Interactive mode: `INFO: Valid input - 0x%04lX`. -/
  | validInput (value : Nat)
  /-- Interactive mode: `INFO: Sent IR signal`. -/
  | sent
  /-- Script mode: `INFO: Sent IR signal 0x%04lX`. -/
  | sentCode (value : Nat)
  /-- Both modes: `ERROR: Unable to send IR`. -/
  | sendFailed
  deriving DecidableEq, Repr

/-- The text written to `stderr` for a diagnostic. -/
def Msg.text : Msg → List Char
  | .prompt => ">:".toList
  | .lengthInfo => "INFO: Must be 4 hex digits long\n".toList
  | .lengthError => "ERROR: Must be 4 hex digits long\n".toList
  | .charsetError => "ERROR: non-hex chars used\n".toList
  | .formatError => "ERROR: invalid hex format\n".toList
  | .rangeError => "ERROR: value exceeds 16 bits\n".toList
  | .validInput v => "INFO: Valid input - 0x".toList ++ fmt04X v ++ ['\n']
  | .sent => "INFO: Sent IR signal\n".toList
  | .sentCode v => "INFO: Sent IR signal 0x".toList ++ fmt04X v ++ ['\n']
  | .sendFailed => "ERROR: Unable to send IR\n".toList

/-- Observable actions of a run, in program order. -/
inductive Event where
  /-- `sleep` / `usleep`, in microseconds. -/
  | sleep (us : Nat)
  /-- A call `Ir.SendNecSignal(code)`. -/
  | send (code : Nat)
  /-- A line written to `stderr`. -/
  | log (m : Msg)
  deriving DecidableEq, Repr

/-- Modelled from the spec: the declaration of `SendNecSignal` (TiqiaaUsb.hpp) is not
among the sources; the external interface gives it as `SendNecSignal(code: uint16)`, so
the `unsigned long` argument is converted to 16 bits at the call. -/
def toUint16 (value : Nat) : Nat := value % 2 ^ 16

/-! ## Script mode (`-y`) -/

/-- State in which the script loop was left. -/
structure ScriptRun where
  /-- Events of the run, in order. -/
  trace : List Event
  /-- Part of the script file never read. -/
  unread : List Char
  /-- Final value of `lineNum`. -/
  lineNum : Nat
  /-- Final value of `count`. -/
  count : Nat
  deriving DecidableEq, Repr

/-- Puts events in front of the trace of the rest of a run. -/
def ScriptRun.emit (es : List Event) (r : ScriptRun) : ScriptRun :=
  { r with trace := es ++ r.trace }

/-- The `while` loop of the `-y` branch.  `calls` counts the calls of `SendNecSignal`
made so far; `file` is the part of the script not read yet. -/
def scriptLoop (dev : Nat → Bool) (lineNum count calls : Nat) (file : List Char) :
    ScriptRun :=
  match h : fgets 256 file with
  | none => ⟨[], file, lineNum, count⟩
  | some (buf, rest) =>
    if count < 64 then
      let line := stripNewline buf
      if line = "#quit".toList then ⟨[], rest, lineNum + 1, count⟩
      else if line = "#wait".toList then
        (scriptLoop dev (lineNum + 1) count calls rest).emit [.sleep 1000000]
      else if line = "#wake".toList then
        (scriptLoop dev (lineNum + 1) count calls rest).emit [.sleep 15000000]
      else if line.length < 4 ∨ line.length > 4 then
        ⟨[.sleep 500000, .log .lengthError], rest, lineNum + 1, count⟩
      else if line.all isxdigit = false then
        ⟨[.sleep 500000, .log .charsetError], rest, lineNum + 1, count⟩
      else
        let r := strtoul16 line
        let diag : List Event :=
          if r.2 ≠ [] then [.log .formatError]
          else if r.1 > 0xffff then [.log .rangeError]
          else []
        let outcome : Msg := if dev calls then .sentCode r.1 else .sendFailed
        (scriptLoop dev (lineNum + 1) count (calls + 1) rest).emit
          ([.sleep 500000] ++ diag ++ [.send (toUint16 r.1), .log outcome])
    else ⟨[], rest, lineNum, count⟩
termination_by file.length
decreasing_by
  all_goals
    have aux : ∀ (k : Nat) (s : List Char), (fgetsAux k s).2.length ≤ s.length := by
      intro k
      induction k with
      | zero => intro s; simp [fgetsAux]
      | succ k ih =>
        intro s
        cases s with
        | nil => simp [fgetsAux]
        | cons c s =>
          simp only [fgetsAux]
          split
          · simp
          · exact Nat.le_succ_of_le (ih s)
    cases file with
    | nil => simp [fgets] at h
    | cons c s =>
      simp only [fgets, Option.some.injEq] at h
      have h2 : rest = (fgetsAux 255 (c :: s)).2 := by rw [h]
      rw [h2]
      simp only [fgetsAux]
      split
      · simp
      · exact Nat.lt_succ_of_le (aux 254 s)

/-- The `-y` branch: `lineNum = 0`, `count = 0`, then the loop. -/
def runScript (dev : Nat → Bool) (file : List Char) : ScriptRun :=
  scriptLoop dev 0 0 0 file

/-! ## Interactive mode (`-t`) -/

/-- `static const int MaxInputLength = 5;` -/
def MaxInputLength : Nat := 5

/-- `while ((c = getchar()) != '\n' && c != EOF);` : the input left after the rest
of the current line, newline included, has been consumed. -/
def flushLine : List Char → List Char
  | [] => []
  | c :: s => if c = '\n' then s else flushLine s

/-- State in which the interactive loop was left. -/
structure Session where
  /-- Events of the session, in order. -/
  trace : List Event
  /-- Part of standard input never read. -/
  unread : List Char
  deriving DecidableEq, Repr

/-- Puts events in front of the trace of the rest of a session. -/
def Session.emit (es : List Event) (r : Session) : Session :=
  { r with trace := es ++ r.trace }

/-- The `while(1)` loop of the `-t` branch.  `calls` counts the calls of
`SendNecSignal` made so far; `stdin` is the input not read yet. -/
def interactiveLoop (dev : Nat → Bool) (calls : Nat) (stdin : List Char) : Session :=
  match h : fgets MaxInputLength stdin with
  | none => ⟨[.log .prompt], stdin⟩
  | some (buf, rest) =>
    let input := stripNewline buf
    if input = "quit".toList then ⟨[.log .prompt], rest⟩
    else
      let len := input.length
      if len < 4 ∨ len > 4 then
        (interactiveLoop dev calls rest).emit [.log .prompt, .log .lengthInfo]
      else if input.all isxdigit = false then
        (interactiveLoop dev calls rest).emit [.log .prompt, .log .charsetError]
      else
        let r := strtoul16 input
        let diag : Msg :=
          if r.2 ≠ [] then .formatError
          else if r.1 > 0xffff then .rangeError
          else .validInput r.1
        let outcome : Msg := if dev calls then .sent else .sendFailed
        let rest' :=
          if len = MaxInputLength - 1 ∧ input.getD (len - 1) NUL ≠ '\n' then flushLine rest
          else rest
        (interactiveLoop dev (calls + 1) rest').emit
          [.log .prompt, .log diag, .send (toUint16 r.1), .log outcome]
termination_by stdin.length
decreasing_by
  all_goals
    have aux : ∀ (k : Nat) (s : List Char), (fgetsAux k s).2.length ≤ s.length := by
      intro k
      induction k with
      | zero => intro s; simp [fgetsAux]
      | succ k ih =>
        intro s
        cases s with
        | nil => simp [fgetsAux]
        | cons c s =>
          simp only [fgetsAux]
          split
          · simp
          · exact Nat.le_succ_of_le (ih s)
    have flush : ∀ s : List Char, (flushLine s).length ≤ s.length := by
      intro s
      induction s with
      | nil => simp [flushLine]
      | cons c s ih =>
        simp only [flushLine]
        split
        · simp
        · exact Nat.le_succ_of_le ih
    have lt : rest.length < stdin.length := by
      cases stdin with
      | nil => simp [fgets] at h
      | cons c s =>
        simp only [fgets, MaxInputLength, Option.some.injEq] at h
        have h2 : rest = (fgetsAux 4 (c :: s)).2 := by rw [h]
        rw [h2]
        simp only [fgetsAux]
        split
        · simp
        · exact Nat.lt_succ_of_le (aux 3 s)
    first
      | exact lt
      | (split
         · exact Nat.lt_of_le_of_lt (flush rest) lt
         · exact lt)

/-- The `-t` branch. -/
def runInteractive (dev : Nat → Bool) (stdin : List Char) : Session :=
  interactiveLoop dev 0 stdin

/-! ## Raw signals: receive (`-r`) and send (`-s`) -/

/-- A `FILE *` with the file behind it: the bytes of the file and whether the handle
is still open.  Reads and writes are taken to succeed in full. -/
structure Stream where
  /-- Bytes of the file. -/
  content : List Nat
  /-- The handle has not been passed to `fclose`. -/
  isOpen : Bool
  deriving DecidableEq, Repr

/-- `fopen(path, "wb")`, successful: the file is created or truncated. -/
def fopenWb : Stream := ⟨[], true⟩

/-- `fopen(path, "rb")`, successful, on a file holding `bytes`. -/
def fopenRb (bytes : List Nat) : Stream := ⟨bytes, true⟩

/-- `fwrite(data, sizeof(char), size, f)`: the first `size` bytes of `data` are
appended to the file. -/
def fwrite (data : List Nat) (size : Nat) (f : Stream) : Stream :=
  if f.isOpen then { f with content := f.content ++ data.take size } else f

/-- `fclose(f)`. -/
def fclose (f : Stream) : Stream := { f with isOpen := false }

/-- Diagnostics of the raw modes. -/
inductive RawMsg where
  /-- The callback: `INFO: Received data %d`. -/
  | receivedData (size : Nat)
  /-- Send mode: `INFO: Sent IR signal`. -/
  | sentIR
  /-- Send mode: `ERROR: Unable to send IR`. -/
  | sendFailed
  /-- Receive mode: `INFO: Waiting for IR signal`. -/
  | waiting
  /-- Receive mode: `ERROR: Unable to receive IR`. -/
  | recvFailed
  deriving DecidableEq, Repr

/-- Observable actions of the raw modes. -/
inductive RawEvent where
  /-- A call `Ir.SendIR(freq, buffer, size)`. -/
  | sendIR (freq : Nat) (buffer : List Nat) (size : Nat)
  /-- A call `Ir.StartRecvIR()`. -/
  | startRecvIR
  /-- `usleep`, in microseconds. -/
  | usleep (us : Nat)
  /-- A diagnostic line. -/
  | log (m : RawMsg)
  deriving DecidableEq, Repr

/-- The `-s` branch once `fopen(path, "rb")` has succeeded: the size is found with
`fseek` / `ftell`, the whole file is read into `buffer`, the file is closed and the
buffer is handed to `SendIR`, whose return value is `sendOk`.  The result is the
events and the file handle as it is left. -/
def sendMode (sendOk : Bool) (io_file : Stream) : List RawEvent × Stream :=
  let size := io_file.content.length
  let buffer := io_file.content.take size
  ([.sendIR 38000 buffer size, .log (if sendOk then .sentIR else .sendFailed)],
    fclose io_file)

/-- Where the main flow of a receive session stands. -/
inductive MainPc where
  /-- Before `signal_received = false`. -/
  | arm
  /-- Before `Ir.StartRecvIR()`. -/
  | start
  /-- In `while( !signal_received ) usleep(1000);`. -/
  | poll
  /-- Past the `if`: the session is over. -/
  | done
  deriving DecidableEq, Repr

/-- Where `test_callback` stands. -/
inductive CbPc where
  /-- Not called yet. -/
  | idle
  /-- After the `printf`. -/
  | entered
  /-- After the `fwrite`. -/
  | written
  /-- After the `fclose`. -/
  | closed
  /-- After `signal_received = true`: returned. -/
  | returned
  deriving DecidableEq, Repr

/-- State of a receive session: the two globals, the two flows and the events so far. -/
structure RecvState where
  /-- `static bool signal_received`. -/
  signal_received : Bool
  /-- `static FILE *io_file`. -/
  io_file : Stream
  /-- Position of the main flow. -/
  mainPc : MainPc
  /-- Position of the callback. -/
  cbPc : CbPc
  /-- `StartRecvIR` has succeeded: the transceiver may call the callback. -/
  armed : Bool
  /-- Events so far, in order. -/
  trace : List RawEvent
  deriving DecidableEq, Repr

/-- One statement of `test_callback(data, size, ...)`. -/
def callbackStep (data : List Nat) (size : Nat) (s : RecvState) : RecvState :=
  match s.cbPc with
  | .idle => { s with cbPc := .entered, trace := s.trace ++ [.log (.receivedData size)] }
  | .entered => { s with cbPc := .written, io_file := fwrite data size s.io_file }
  | .written => { s with cbPc := .closed, io_file := fclose s.io_file }
  | .closed => { s with cbPc := .returned, signal_received := true }
  | .returned => s

/-- `test_callback(data, size, ...)` run from its call to its return. -/
def test_callback (data : List Nat) (size : Nat) (s : RecvState) : RecvState :=
  callbackStep data size (callbackStep data size (callbackStep data size
    (callbackStep data size s)))

/-- One step of the main flow of the receive branch; `startOk` is the value returned
by `Ir.StartRecvIR()`. -/
def mainStep (startOk : Bool) (s : RecvState) : RecvState :=
  match s.mainPc with
  | .arm => { s with signal_received := false, mainPc := .start }
  | .start =>
    if startOk then
      { s with mainPc := .poll, armed := true,
               trace := s.trace ++ [.startRecvIR, .log .waiting] }
    else
      { s with mainPc := .done, trace := s.trace ++ [.startRecvIR, .log .recvFailed] }
  | .poll =>
    if s.signal_received then { s with mainPc := .done }
    else { s with trace := s.trace ++ [.usleep 1000] }
  | .done => s

/-- Which flow makes the next step. -/
inductive Actor where
  /-- The main flow. -/
  | main
  /-- The transceiver layer running the callback. -/
  | callback
  deriving DecidableEq, Repr

/-- One step of a receive session.  The callback runs only once `StartRecvIR` has
succeeded, and once. -/
def recvStep (startOk : Bool) (data : List Nat) (size : Nat) (a : Actor)
    (s : RecvState) : RecvState :=
  match a with
  | .main => mainStep startOk s
  | .callback => if s.armed then callbackStep data size s else s

/-- A receive session under the interleaving `sched` of the two flows. -/
def recvRun (startOk : Bool) (data : List Nat) (size : Nat) (sched : List Actor)
    (s : RecvState) : RecvState :=
  sched.foldl (fun s a => recvStep startOk data size a s) s

/-- The receive branch is entered: the destination was opened with `fopen(path, "wb")`;
`flag` is whatever `signal_received` holds at that time. -/
def recvInit (flag : Bool) : RecvState :=
  ⟨flag, fopenWb, .arm, .idle, false, []⟩

/-- What holds in every state of a receive session in which the callback is given
`data` and `size`: the positions of the two flows fix the flag and the file. -/
def RecvInv (data : List Nat) (size : Nat) (s : RecvState) : Prop :=
  (s.armed = false → s.cbPc = .idle ∧ s.mainPc ≠ .poll) ∧
  (s.armed = true → s.mainPc = .poll ∨ s.mainPc = .done) ∧
  (s.mainPc = .start → s.signal_received = false) ∧
  (s.mainPc ≠ .arm → (s.signal_received = true ↔ s.cbPc = .returned)) ∧
  (s.mainPc = .done → s.armed = true → s.signal_received = true) ∧
  (s.cbPc = .idle ∨ s.cbPc = .entered → s.io_file = ⟨[], true⟩) ∧
  (s.cbPc = .written → s.io_file = ⟨data.take size, true⟩) ∧
  (s.cbPc = .closed ∨ s.cbPc = .returned → s.io_file = ⟨data.take size, false⟩)

/-- What holds in every state of a receive session whose `StartRecvIR` fails. -/
def RecvFailInv (s : RecvState) : Prop :=
  s.armed = false ∧ s.cbPc = .idle ∧ s.io_file = fopenWb ∧
    (((s.mainPc = .arm ∨ (s.mainPc = .start ∧ s.signal_received = false)) ∧
        s.trace = []) ∨
      (s.mainPc = .done ∧ s.signal_received = false ∧
        s.trace = [.startRecvIR, .log .recvFailed]))

/-! ## Vocabulary of the specification -/

/-- The text file whose lines are `ls`, each one ended by a newline. -/
def textFile : List (List Char) → List Char
  | [] => []
  | l :: ls => l ++ '\n' :: textFile ls

/-- A line of text: no newline and no NUL byte inside. -/
def textLine (l : List Char) : Bool :=
  l.all (fun c => c != '\n' && c != NUL)

/-- A HexToken: exactly 4 characters, each a hex digit. -/
def hexToken (l : List Char) : Bool :=
  l.length == 4 && l.all isxdigit

/-- The codes passed to `SendNecSignal`, in call order. -/
def sends : List Event → List Nat
  | [] => []
  | .send c :: t => c :: sends t
  | _ :: t => sends t

/-- Total time slept, in microseconds. -/
def sleepTotal : List Event → Nat
  | [] => 0
  | .sleep us :: t => us + sleepTotal t
  | _ :: t => sleepTotal t

/-- The diagnostics written to `stderr`, in order. -/
def logs : List Event → List Msg
  | [] => []
  | .log m :: t => m :: logs t
  | _ :: t => logs t

/-- Diagnostics that report a failed validation of a line. -/
def Msg.isValidationError : Msg → Bool
  | .lengthInfo | .lengthError | .charsetError | .formatError | .rangeError => true
  | _ => false

/-- Diagnostics that report the outcome of a `SendNecSignal` call. -/
def Msg.isSendOutcome : Msg → Bool
  | .sent | .sentCode _ | .sendFailed => true
  | _ => false

/-- A trace without the diagnostics that report the outcome of a `SendNecSignal` call:
the sleeps, the calls and the validation diagnostics, in order. -/
def withoutOutcomes : List Event → List Event
  | [] => []
  | .log m :: t => if m.isSendOutcome then withoutOutcomes t else .log m :: withoutOutcomes t
  | e :: t => e :: withoutOutcomes t

/-- The durations of the sleeps, in order. -/
def sleeps : List Event → List Nat
  | [] => []
  | .sleep us :: t => us :: sleeps t
  | _ :: t => sleeps t

/-! ## C library: lemmas -/

theorem isxdigit_mem {c : Char} (h : isxdigit c = true) :
    c ∈ "0123456789abcdefABCDEF".toList := by
  have hc : c = Char.ofNat c.toNat := (Char.ofNat_toNat c).symm
  have h' : (48 ≤ c.toNat ∧ c.toNat ≤ 57) ∨ (97 ≤ c.toNat ∧ c.toNat ≤ 102) ∨
      (65 ≤ c.toNat ∧ c.toNat ≤ 70) := by
    simp only [isxdigit, Bool.or_eq_true, Bool.and_eq_true, decide_eq_true_eq, Char.le_def] at h
    rcases h with (⟨h1, h2⟩ | ⟨h1, h2⟩) | ⟨h1, h2⟩
    · exact Or.inl ⟨h1, h2⟩
    · exact Or.inr (Or.inl ⟨h1, h2⟩)
    · exact Or.inr (Or.inr ⟨h1, h2⟩)
  generalize c.toNat = n at hc h'
  subst hc
  rcases h' with ⟨h1, h2⟩ | ⟨h1, h2⟩ | ⟨h1, h2⟩ <;> interval_cases n <;> decide

theorem hex_facts {c : Char} (h : isxdigit c = true) :
    isspace c = false ∧ c ≠ '-' ∧ c ≠ '+' ∧ c ≠ 'x' ∧ c ≠ 'X' ∧ c ≠ '\n' ∧ c ≠ NUL ∧
      c ≠ '#' ∧ ∃ d, d < 16 ∧ hexVal c = some d ∧ hexDigitUpper d = c.toUpper := by
  have key : ∀ c ∈ "0123456789abcdefABCDEF".toList,
      isspace c = false ∧ c ≠ '-' ∧ c ≠ '+' ∧ c ≠ 'x' ∧ c ≠ 'X' ∧ c ≠ '\n' ∧ c ≠ NUL ∧
      c ≠ '#' ∧ ∃ d, d < 16 ∧ hexVal c = some d ∧ hexDigitUpper d = c.toUpper := by
    decide
  exact key c (isxdigit_mem h)

theorem toHexUpper_small {v : Nat} (f : Nat) (h : v < 16) : toHexUpper f v = [hexDigitUpper v] := by
  cases f with
  | zero => simp [toHexUpper, Nat.mod_eq_of_lt h]
  | succ f => simp [toHexUpper, h]

theorem toHexUpper_step (f : Nat) {q w : Nat} (hq : 0 < q) (hw : w < 16) :
    toHexUpper (f + 1) (q * 16 + w) = toHexUpper f q ++ [hexDigitUpper w] := by
  have h1 : ¬ q * 16 + w < 16 := by omega
  have h2 : (q * 16 + w) / 16 = q := by omega
  have h3 : (q * 16 + w) % 16 = w := by omega
  simp [toHexUpper, h1, h2, h3]

theorem toHexUpper_digits {x y z w : Nat} (hx : x < 16) (hy : y < 16) (hz : z < 16)
    (hw : w < 16) (g : Nat) :
    toHexUpper (g + 3) (((x * 16 + y) * 16 + z) * 16 + w) =
      if x = 0 then
        if y = 0 then
          if z = 0 then [hexDigitUpper w] else [hexDigitUpper z, hexDigitUpper w]
        else [hexDigitUpper y, hexDigitUpper z, hexDigitUpper w]
      else [hexDigitUpper x, hexDigitUpper y, hexDigitUpper z, hexDigitUpper w] := by
  by_cases hx0 : x = 0
  · by_cases hy0 : y = 0
    · by_cases hz0 : z = 0
      · have e : ((x * 16 + y) * 16 + z) * 16 + w = w := by omega
        rw [e, toHexUpper_small _ hw]
        simp [hx0, hy0, hz0]
      · have e : ((x * 16 + y) * 16 + z) * 16 + w = z * 16 + w := by omega
        rw [e, toHexUpper_step (g + 2) (Nat.pos_of_ne_zero hz0) hw, toHexUpper_small _ hz]
        simp [hx0, hy0, hz0]
    · have e : ((x * 16 + y) * 16 + z) * 16 + w = (y * 16 + z) * 16 + w := by omega
      have hq : 0 < y * 16 + z := by omega
      rw [e, toHexUpper_step (g + 2) hq hw,
        toHexUpper_step (g + 1) (Nat.pos_of_ne_zero hy0) hz, toHexUpper_small _ hy]
      simp [hx0, hy0]
  · have hq : 0 < (x * 16 + y) * 16 + z := by omega
    have hq2 : 0 < x * 16 + y := by omega
    rw [toHexUpper_step (g + 2) hq hw, toHexUpper_step (g + 1) hq2 hz,
      toHexUpper_step g (Nat.pos_of_ne_zero hx0) hy, toHexUpper_small _ hx]
    simp [hx0]

theorem fmt04X_digits {x y z w : Nat} (hx : x < 16) (hy : y < 16) (hz : z < 16) (hw : w < 16) :
    fmt04X (((x * 16 + y) * 16 + z) * 16 + w) =
      [hexDigitUpper x, hexDigitUpper y, hexDigitUpper z, hexDigitUpper w] := by
  have h0 : hexDigitUpper 0 = '0' := by decide
  unfold fmt04X
  by_cases hv : ((x * 16 + y) * 16 + z) * 16 + w < 16
  · have e : ((x * 16 + y) * 16 + z) * 16 + w = w := by omega
    have hx0 : x = 0 := by omega
    have hy0 : y = 0 := by omega
    have hz0 : z = 0 := by omega
    rw [e, toHexUpper_small _ hw]
    simp [hx0, hy0, hz0, h0, List.replicate]
  · obtain ⟨g, hg⟩ : ∃ g, ((x * 16 + y) * 16 + z) * 16 + w = g + 3 :=
      ⟨((x * 16 + y) * 16 + z) * 16 + w - 3, by omega⟩
    have key := toHexUpper_digits hx hy hz hw g
    rw [← hg] at key
    rw [key]
    by_cases hx0 : x = 0
    · by_cases hy0 : y = 0
      · by_cases hz0 : z = 0
        · omega
        · simp [hx0, hy0, hz0, h0, List.replicate]
      · simp [hx0, hy0, h0, List.replicate]
    · simp [hx0]

theorem strtoul16_hex4 {a b c d : Char} (ha : isxdigit a = true) (hb : isxdigit b = true)
    (hc : isxdigit c = true) (hd : isxdigit d = true) :
    ∃ v, v < 65536 ∧ strtoul16 [a, b, c, d] = (v, []) ∧ fmt04X v = [a.toUpper, b.toUpper, c.toUpper, d.toUpper] := by
  obtain ⟨a1, a2, a3, a4, a5, a6, a7, a8, da, hda, hva, hua⟩ := hex_facts ha
  obtain ⟨b1, b2, b3, b4, b5, b6, b7, b8, db, hdb, hvb, hub⟩ := hex_facts hb
  obtain ⟨c1, c2, c3, c4, c5, c6, c7, c8, dc, hdc, hvc, huc⟩ := hex_facts hc
  obtain ⟨d1, d2, d3, d4, d5, d6, d7, d8, dd, hdd, hvd, hud⟩ := hex_facts hd
  refine ⟨((da * 16 + db) * 16 + dc) * 16 + dd, by omega, ?_, ?_⟩
  · have hs : skip0x [a, b, c, d] = [a, b, c, d] := by
      unfold skip0x
      split
      · rename_i heq
        simp only [List.cons.injEq] at heq
        obtain ⟨-, rfl, -⟩ := heq
        simp [b4, b5]
      · rfl
    have hmax : ¬ ULONG_MAX < ((da * 16 + db) * 16 + dc) * 16 + dd := by
      simp only [ULONG_MAX]; omega
    simp [strtoul16, a1, a2, a3, hs, hva, hvb, hvc, hvd, strtoulDigits, hmax]
  · rw [← hua, ← hub, ← huc, ← hud]
    exact fmt04X_digits hda hdb hdc hdd

theorem fgetsAux_line (k : Nat) (l rest : List Char) (hl : ∀ c ∈ l, c ≠ '\n')
    (hk : l.length < k) : fgetsAux k (l ++ '\n' :: rest) = (l ++ ['\n'], rest) := by
  induction l generalizing k with
  | nil =>
    obtain ⟨j, rfl⟩ : ∃ j, k = j + 1 := ⟨k - 1, by simp at hk; omega⟩
    simp [fgetsAux]
  | cons c l ih =>
    obtain ⟨j, rfl⟩ : ∃ j, k = j + 1 := ⟨k - 1, by simp at hk; omega⟩
    have hc : c ≠ '\n' := hl c (List.mem_cons_self _ _)
    have hl' : ∀ c ∈ l, c ≠ '\n' := fun x hx => hl x (List.mem_cons_of_mem _ hx)
    have hj : l.length < j := by simp at hk; omega
    simp [fgetsAux, hc, ih j hl' hj]

theorem fgetsAux_long (k : Nat) (l t : List Char) (hl : ∀ c ∈ l, c ≠ '\n')
    (hk : k ≤ l.length) : fgetsAux k (l ++ t) = (l.take k, l.drop k ++ t) := by
  induction k generalizing l with
  | zero => simp [fgetsAux]
  | succ k ih =>
    cases l with
    | nil => simp at hk
    | cons c l =>
      have hc : c ≠ '\n' := hl c (List.mem_cons_self _ _)
      have hl' : ∀ c ∈ l, c ≠ '\n' := fun x hx => hl x (List.mem_cons_of_mem _ hx)
      have hj : k ≤ l.length := by simp at hk; omega
      simp [fgetsAux, hc, ih l hl' hj]

theorem textLine_cons {c : Char} {l : List Char} :
    textLine (c :: l) = true ↔ (c ≠ '\n' ∧ c ≠ NUL) ∧ textLine l = true := by
  simp [textLine]

theorem cstr_text_append (l x : List Char) (hl : textLine l = true) :
    cstr (l ++ x) = l ++ cstr x := by
  induction l with
  | nil => rfl
  | cons c l ih =>
    obtain ⟨⟨-, h2⟩, h3⟩ := textLine_cons.1 hl
    have := ih h3
    unfold cstr at this ⊢
    rw [List.cons_append, List.takeWhile_cons]
    simp [h2, this]

theorem strcspn_text_append (l x : List Char) (hl : textLine l = true) :
    strcspn (l ++ '\n' :: x) ['\n'] = l.length := by
  induction l with
  | nil => simp [strcspn]
  | cons c l ih =>
    obtain ⟨⟨h1, -⟩, h3⟩ := textLine_cons.1 hl
    have := ih h3
    unfold strcspn at this ⊢
    rw [List.cons_append, List.takeWhile_cons]
    simp only [List.contains_cons, List.contains_nil, Bool.or_false, beq_iff_eq, h1,
      Bool.not_false, List.length_cons] at this ⊢
    simp [h1, this]

theorem strcspn_text (l : List Char) (hl : textLine l = true) :
    strcspn l ['\n'] = l.length := by
  induction l with
  | nil => simp [strcspn]
  | cons c l ih =>
    obtain ⟨⟨h1, -⟩, h3⟩ := textLine_cons.1 hl
    have := ih h3
    unfold strcspn at this ⊢
    rw [List.takeWhile_cons]
    simp only [List.contains_cons, List.contains_nil, Bool.or_false, beq_iff_eq, h1,
      Bool.not_false, List.length_cons] at this ⊢
    simp [h1, this]

theorem stripNewline_line (l x : List Char) (hl : textLine l = true) :
    stripNewline (l ++ '\n' :: x) = l := by
  have hn : cstr ('\n' :: x) = '\n' :: cstr x := by
    unfold cstr
    rw [List.takeWhile_cons]
    simp [NUL]
  unfold stripNewline
  rw [cstr_text_append l _ hl, hn, strcspn_text_append l _ hl]
  simp

theorem stripNewline_text (l : List Char) (hl : textLine l = true) :
    stripNewline l = l := by
  have h := cstr_text_append l [] hl
  simp only [List.append_nil] at h
  have h0 : cstr [] = [] := rfl
  unfold stripNewline
  rw [h, h0, List.append_nil, strcspn_text l hl]
  simp

theorem fgets_line (n : Nat) (l rest : List Char) (hl : textLine l = true)
    (hn : l.length + 1 < n) : fgets n (l ++ '\n' :: rest) = some (l ++ ['\n'], rest) := by
  have hnl : ∀ c ∈ l, c ≠ '\n' := by
    intro c hc
    have := List.all_eq_true.1 hl c hc
    simp at this
    exact this.1
  have h := fgetsAux_line (n - 1) l rest hnl (by omega)
  cases l with
  | nil => simpa [fgets] using h
  | cons c l => simpa [fgets] using h

/-! ## Script mode: lemmas -/

theorem scriptLoop_none (dev : Nat → Bool) (ln count calls : Nat) :
    scriptLoop dev ln count calls [] = ⟨[], [], ln, count⟩ := by
  rw [scriptLoop]
  split
  · rfl
  · rename_i h
    simp [fgets] at h

theorem scriptLoop_some (dev : Nat → Bool) (ln count calls : Nat) {file buf rest : List Char}
    (h : fgets 256 file = some (buf, rest)) :
    scriptLoop dev ln count calls file =
      if count < 64 then
        if stripNewline buf = "#quit".toList then ⟨[], rest, ln + 1, count⟩
        else if stripNewline buf = "#wait".toList then
          (scriptLoop dev (ln + 1) count calls rest).emit [.sleep 1000000]
        else if stripNewline buf = "#wake".toList then
          (scriptLoop dev (ln + 1) count calls rest).emit [.sleep 15000000]
        else if (stripNewline buf).length < 4 ∨ (stripNewline buf).length > 4 then
          ⟨[.sleep 500000, .log .lengthError], rest, ln + 1, count⟩
        else if (stripNewline buf).all isxdigit = false then
          ⟨[.sleep 500000, .log .charsetError], rest, ln + 1, count⟩
        else
          (scriptLoop dev (ln + 1) count (calls + 1) rest).emit
            ([.sleep 500000] ++
              (if (strtoul16 (stripNewline buf)).2 ≠ [] then [.log .formatError]
               else if (strtoul16 (stripNewline buf)).1 > 0xffff then [.log .rangeError]
               else []) ++
              [.send (toUint16 (strtoul16 (stripNewline buf)).1),
               .log (if dev calls then .sentCode (strtoul16 (stripNewline buf)).1
                 else .sendFailed)])
      else ⟨[], rest, ln, count⟩ := by
  rw [scriptLoop]
  split
  · rename_i h'
    rw [h] at h'
    cases h'
  · rename_i b r h'
    rw [h] at h'
    cases h'
    rfl

theorem scriptLoop_line (dev : Nat → Bool) (ln calls : Nat) (l rest : List Char)
    (hl : textLine l = true) (hlen : l.length < 255) :
    scriptLoop dev ln 0 calls (l ++ '\n' :: rest) =
      if l = "#quit".toList then ⟨[], rest, ln + 1, 0⟩
      else if l = "#wait".toList then
        (scriptLoop dev (ln + 1) 0 calls rest).emit [.sleep 1000000]
      else if l = "#wake".toList then
        (scriptLoop dev (ln + 1) 0 calls rest).emit [.sleep 15000000]
      else if l.length < 4 ∨ l.length > 4 then
        ⟨[.sleep 500000, .log .lengthError], rest, ln + 1, 0⟩
      else if l.all isxdigit = false then
        ⟨[.sleep 500000, .log .charsetError], rest, ln + 1, 0⟩
      else
        (scriptLoop dev (ln + 1) 0 (calls + 1) rest).emit
          ([.sleep 500000] ++
            (if (strtoul16 l).2 ≠ [] then [.log .formatError]
             else if (strtoul16 l).1 > 0xffff then [.log .rangeError] else []) ++
            [.send (toUint16 (strtoul16 l).1),
             .log (if dev calls then .sentCode (strtoul16 l).1 else .sendFailed)]) := by
  rw [scriptLoop_some dev ln 0 calls (fgets_line 256 l rest hl (by omega)),
    stripNewline_line l [] hl]
  simp

theorem fgetsAux_length_le (k : Nat) (s : List Char) :
    (fgetsAux k s).2.length ≤ s.length := by
  induction k generalizing s with
  | zero => simp [fgetsAux]
  | succ k ih =>
    cases s with
    | nil => simp [fgetsAux]
    | cons c s =>
      simp only [fgetsAux]
      split
      · simp
      · exact Nat.le_succ_of_le (ih s)

theorem fgets_length_lt {n : Nat} (hn : 2 ≤ n) {s buf rest : List Char}
    (h : fgets n s = some (buf, rest)) : rest.length < s.length := by
  cases s with
  | nil => simp [fgets] at h
  | cons c s =>
    obtain ⟨k, rfl⟩ : ∃ k, n = k + 2 := ⟨n - 2, by omega⟩
    simp only [fgets, Option.some.injEq] at h
    have h2 : rest = (fgetsAux (k + 1) (c :: s)).2 := (congrArg Prod.snd h).symm
    rw [h2]
    simp only [fgetsAux]
    split
    · simp
    · exact Nat.lt_succ_of_le (fgetsAux_length_le k s)

theorem hexToken_cases {l : List Char} (h : hexToken l = true) :
    ∃ a b c d, l = [a, b, c, d] ∧ isxdigit a = true ∧ isxdigit b = true ∧
      isxdigit c = true ∧ isxdigit d = true := by
  simp only [hexToken, Bool.and_eq_true, beq_iff_eq] at h
  obtain ⟨hlen, hall⟩ := h
  match l, hlen with
  | [a, b, c, d], _ =>
    refine ⟨a, b, c, d, rfl, ?_⟩
    simpa using hall

theorem hexToken_textLine {l : List Char} (h : hexToken l = true) : textLine l = true := by
  obtain ⟨a, b, c, d, rfl, ha, hb, hc, hd⟩ := hexToken_cases h
  obtain ⟨-, -, -, -, -, a6, a7, -⟩ := hex_facts ha
  obtain ⟨-, -, -, -, -, b6, b7, -⟩ := hex_facts hb
  obtain ⟨-, -, -, -, -, c6, c7, -⟩ := hex_facts hc
  obtain ⟨-, -, -, -, -, d6, d7, -⟩ := hex_facts hd
  simp [textLine, a6, a7, b6, b7, c6, c7, d6, d7]

theorem strtoul16_token {l : List Char} (h : hexToken l = true) :
    (strtoul16 l).1 < 65536 ∧ (strtoul16 l).2 = [] ∧
      fmt04X (strtoul16 l).1 = l.map Char.toUpper := by
  obtain ⟨a, b, c, d, rfl, ha, hb, hc, hd⟩ := hexToken_cases h
  obtain ⟨v, hv, hs, hf⟩ := strtoul16_hex4 ha hb hc hd
  rw [hs]
  exact ⟨hv, rfl, by simpa using hf⟩

theorem scriptLoop_quit (dev : Nat → Bool) (ln calls : Nat) (rest : List Char) :
    scriptLoop dev ln 0 calls ("#quit".toList ++ '\n' :: rest) = ⟨[], rest, ln + 1, 0⟩ := by
  rw [scriptLoop_line dev ln calls _ rest (by decide) (by decide)]
  simp

theorem scriptLoop_wait (dev : Nat → Bool) (ln calls : Nat) (rest : List Char) :
    scriptLoop dev ln 0 calls ("#wait".toList ++ '\n' :: rest) =
      (scriptLoop dev (ln + 1) 0 calls rest).emit [.sleep 1000000] := by
  rw [scriptLoop_line dev ln calls _ rest (by decide) (by decide)]
  simp

theorem scriptLoop_wake (dev : Nat → Bool) (ln calls : Nat) (rest : List Char) :
    scriptLoop dev ln 0 calls ("#wake".toList ++ '\n' :: rest) =
      (scriptLoop dev (ln + 1) 0 calls rest).emit [.sleep 15000000] := by
  rw [scriptLoop_line dev ln calls _ rest (by decide) (by decide)]
  simp

theorem scriptLoop_token (dev : Nat → Bool) (ln calls : Nat) {l : List Char} (rest : List Char)
    (h : hexToken l = true) :
    scriptLoop dev ln 0 calls (l ++ '\n' :: rest) =
      (scriptLoop dev (ln + 1) 0 (calls + 1) rest).emit
        [.sleep 500000, .send (strtoul16 l).1,
         .log (if dev calls then .sentCode (strtoul16 l).1 else .sendFailed)] := by
  obtain ⟨hv, he, -⟩ := strtoul16_token h
  have hh := h
  simp only [hexToken, Bool.and_eq_true, beq_iff_eq] at hh
  obtain ⟨hlen, hall⟩ := hh
  have hq : l ≠ "#quit".toList := fun e => by rw [e] at hlen; simp at hlen
  have hw : l ≠ "#wait".toList := fun e => by rw [e] at hlen; simp at hlen
  have hk : l ≠ "#wake".toList := fun e => by rw [e] at hlen; simp at hlen
  rw [scriptLoop_line dev ln calls l rest (hexToken_textLine h) (by omega)]
  have hu : toUint16 (strtoul16 l).1 = (strtoul16 l).1 := by
    unfold toUint16; omega
  have hr : ¬ (strtoul16 l).1 > 0xffff := by omega
  simp only [hq, hw, hk, hlen, hall, he, hu, hr]
  simp

@[simp] theorem scriptRun_emit_trace (es : List Event) (r : ScriptRun) :
    (r.emit es).trace = es ++ r.trace := rfl

@[simp] theorem scriptRun_emit_unread (es : List Event) (r : ScriptRun) :
    (r.emit es).unread = r.unread := rfl

@[simp] theorem scriptRun_emit_lineNum (es : List Event) (r : ScriptRun) :
    (r.emit es).lineNum = r.lineNum := rfl

@[simp] theorem scriptRun_emit_count (es : List Event) (r : ScriptRun) :
    (r.emit es).count = r.count := rfl

theorem sends_append (s t : List Event) : sends (s ++ t) = sends s ++ sends t := by
  induction s with
  | nil => rfl
  | cons e s ih => cases e <;> simp [sends, ih]

theorem sleepTotal_append (s t : List Event) :
    sleepTotal (s ++ t) = sleepTotal s + sleepTotal t := by
  induction s with
  | nil => simp [sleepTotal]
  | cons e s ih => cases e <;> simp [sleepTotal, ih, Nat.add_assoc]

theorem logs_append (s t : List Event) : logs (s ++ t) = logs s ++ logs t := by
  induction s with
  | nil => rfl
  | cons e s ih => cases e <;> simp [logs, ih]

/-- The loop variable `count` is never assigned: the loop leaves it as it found it. -/
theorem scriptLoop_count (dev : Nat → Bool) (ln count calls : Nat) (file : List Char) :
    (scriptLoop dev ln count calls file).count = count := by
  suffices H : ∀ (n : Nat) (file : List Char), file.length = n → ∀ ln calls,
      (scriptLoop dev ln count calls file).count = count from H _ file rfl ln calls
  intro n
  induction n using Nat.strong_induction_on with
  | _ n ih =>
    intro file hn ln calls
    cases hf : fgets 256 file with
    | none =>
      cases file with
      | nil => rw [scriptLoop_none]
      | cons c s => simp [fgets] at hf
    | some p =>
      obtain ⟨buf, rest⟩ := p
      have hlt : rest.length < n := hn ▸ fgets_length_lt (by decide) hf
      rw [scriptLoop_some dev ln count calls hf]
      split_ifs <;> simp [ih _ hlt rest rfl]

/-- A script made only of code lines: every line is transmitted, whatever their number. -/
theorem scriptLoop_tokens (dev : Nat → Bool) (ls : List (List Char))
    (h : ∀ l ∈ ls, hexToken l = true) (ln calls : Nat) :
    sends (scriptLoop dev ln 0 calls (textFile ls)).trace = ls.map (fun l => (strtoul16 l).1) ∧
      (scriptLoop dev ln 0 calls (textFile ls)).unread = [] ∧
      (scriptLoop dev ln 0 calls (textFile ls)).lineNum = ln + ls.length := by
  induction ls generalizing ln calls with
  | nil => simp [textFile, scriptLoop_none, sends]
  | cons l ls ih =>
    have hl := h l (List.mem_cons_self _ _)
    obtain ⟨h1, h2, h3⟩ := ih (fun x hx => h x (List.mem_cons_of_mem _ hx)) (ln + 1) (calls + 1)
    rw [textFile, scriptLoop_token dev ln calls _ hl]
    simp only [scriptRun_emit_trace, scriptRun_emit_unread, scriptRun_emit_lineNum,
      sends_append, h1, h2, h3]
    simp [sends]
    omega

theorem textLine_take {l : List Char} (h : textLine l = true) (k : Nat) :
    textLine (l.take k) = true := by
  unfold textLine at *
  rw [List.all_eq_true] at *
  intro c hc
  exact h c (List.mem_of_mem_take hc)

theorem textLine_no_newline {l : List Char} (h : textLine l = true) : ∀ c ∈ l, c ≠ '\n' := by
  intro c hc
  have := List.all_eq_true.1 h c hc
  simp at this
  exact this.1

/-- A text line that is neither a directive nor a HexToken stops the loop. -/
theorem scriptLoop_bad (dev : Nat → Bool) (ln calls : Nat) {b : List Char} (later : List Char)
    (hb : textLine b = true)
    (hq : b ≠ "#quit".toList) (hw : b ≠ "#wait".toList) (hk : b ≠ "#wake".toList)
    (hbad : hexToken b = false) :
    scriptLoop dev ln 0 calls (b ++ '\n' :: later) =
      ⟨[.sleep 500000, .log (if b.length = 4 then .charsetError else .lengthError)],
        if b.length < 255 then later else b.drop 255 ++ '\n' :: later, ln + 1, 0⟩ := by
  by_cases hlen : b.length < 255
  · rw [scriptLoop_line dev ln calls b later hb hlen, if_neg hq, if_neg hw, if_neg hk]
    by_cases h4 : b.length = 4
    · have hx : b.all isxdigit = false := by
        simpa [hexToken, h4] using hbad
      simp [h4, hx, hlen]
    · have h4' : b.length < 4 ∨ b.length > 4 := by omega
      simp [h4, h4', hlen]
  · have hf : fgets 256 (b ++ '\n' :: later) = some (b.take 255, b.drop 255 ++ '\n' :: later) := by
      have := fgetsAux_long 255 b ('\n' :: later) (textLine_no_newline hb) (by omega)
      cases b with
      | nil => simp at hlen
      | cons c b => simpa [fgets] using this
    have hs : stripNewline (b.take 255) = b.take 255 := stripNewline_text _ (textLine_take hb _)
    have hl : (b.take 255).length = 255 := by rw [List.length_take]; omega
    have h4 : b.length ≠ 4 := by omega
    have e1 : b.take 255 ≠ "#quit".toList := fun e => by rw [e] at hl; simp at hl
    have e2 : b.take 255 ≠ "#wait".toList := fun e => by rw [e] at hl; simp at hl
    have e3 : b.take 255 ≠ "#wake".toList := fun e => by rw [e] at hl; simp at hl
    rw [scriptLoop_some dev ln 0 calls hf, hs, if_pos (by decide), if_neg e1, if_neg e2,
      if_neg e3]
    simp [hl, h4, hlen]

theorem textFile_cons_append (l : List Char) (ls : List (List Char)) (x : List Char) :
    textFile (l :: ls) ++ x = l ++ '\n' :: (textFile ls ++ x) := by
  simp [textFile]

/-- Lines that are `#wait`, `#wake` or code lines, followed by an invalid line: the
loop, entered in any state, transmits the code lines and stops at the invalid one. -/
theorem scriptLoop_lines_then_bad (dev : Nat → Bool) (p : List (List Char)) {b : List Char}
    (later : List Char)
    (hp : ∀ l ∈ p, l = "#wait".toList ∨ l = "#wake".toList ∨ hexToken l = true)
    (hb : textLine b = true)
    (hq : b ≠ "#quit".toList) (hw : b ≠ "#wait".toList) (hk : b ≠ "#wake".toList)
    (hbad : hexToken b = false) (ln calls : Nat) :
    sends (scriptLoop dev ln 0 calls (textFile p ++ (b ++ '\n' :: later))).trace =
        (p.filter hexToken).map (fun l => (strtoul16 l).1) ∧
      (logs (scriptLoop dev ln 0 calls (textFile p ++ (b ++ '\n' :: later))).trace).filter
          Msg.isValidationError =
        [if b.length = 4 then .charsetError else .lengthError] ∧
      (scriptLoop dev ln 0 calls (textFile p ++ (b ++ '\n' :: later))).trace.getLast? =
        some (.log (if b.length = 4 then .charsetError else .lengthError)) ∧
      (scriptLoop dev ln 0 calls (textFile p ++ (b ++ '\n' :: later))).unread =
        (if b.length < 255 then later else b.drop 255 ++ '\n' :: later) := by
  induction p generalizing ln calls with
  | nil =>
    rw [textFile, List.nil_append, scriptLoop_bad dev ln calls later hb hq hw hk hbad]
    refine ⟨by simp [sends], ?_, by simp, rfl⟩
    by_cases h4 : b.length = 4 <;> simp [logs, h4, Msg.isValidationError]
  | cons l p ih =>
    have ih' := ih (fun x hx => hp x (List.mem_cons_of_mem _ hx))
    rw [textFile_cons_append]
    rcases hp l (List.mem_cons_self _ _) with rfl | rfl | hl
    · obtain ⟨h1, h2, h3, h4⟩ := ih' (ln + 1) calls
      rw [scriptLoop_wait]
      have hne : (scriptLoop dev (ln + 1) 0 calls (textFile p ++ (b ++ '\n' :: later))).trace ≠ [] := by
        intro e; rw [e] at h3; simp at h3
      refine ⟨?_, ?_, ?_, ?_⟩
      · rw [scriptRun_emit_trace, sends_append, h1]
        simp [sends, List.filter_cons, hexToken]
      · rw [scriptRun_emit_trace, logs_append, List.filter_append, h2]
        simp [logs]
      · rw [scriptRun_emit_trace, List.getLast?_append_of_ne_nil _ hne, h3]
      · rw [scriptRun_emit_unread, h4]
    · obtain ⟨h1, h2, h3, h4⟩ := ih' (ln + 1) calls
      rw [scriptLoop_wake]
      have hne : (scriptLoop dev (ln + 1) 0 calls (textFile p ++ (b ++ '\n' :: later))).trace ≠ [] := by
        intro e; rw [e] at h3; simp at h3
      refine ⟨?_, ?_, ?_, ?_⟩
      · rw [scriptRun_emit_trace, sends_append, h1]
        simp [sends, List.filter_cons, hexToken]
      · rw [scriptRun_emit_trace, logs_append, List.filter_append, h2]
        simp [logs]
      · rw [scriptRun_emit_trace, List.getLast?_append_of_ne_nil _ hne, h3]
      · rw [scriptRun_emit_unread, h4]
    · obtain ⟨h1, h2, h3, h4⟩ := ih' (ln + 1) (calls + 1)
      rw [scriptLoop_token dev ln calls _ hl]
      have hne : (scriptLoop dev (ln + 1) 0 (calls + 1)
          (textFile p ++ (b ++ '\n' :: later))).trace ≠ [] := by
        intro e; rw [e] at h3; simp at h3
      refine ⟨?_, ?_, ?_, ?_⟩
      · rw [scriptRun_emit_trace, sends_append, h1]
        simp [sends, List.filter_cons, hl]
      · rw [scriptRun_emit_trace, logs_append, List.filter_append, h2]
        cases dev calls <;> simp [logs, Msg.isValidationError]
      · rw [scriptRun_emit_trace, List.getLast?_append_of_ne_nil _ hne, h3]
      · rw [scriptRun_emit_unread, h4]

/-! ## Interactive mode: lemmas -/

@[simp] theorem session_emit_trace (es : List Event) (r : Session) :
    (r.emit es).trace = es ++ r.trace := rfl

@[simp] theorem session_emit_unread (es : List Event) (r : Session) :
    (r.emit es).unread = r.unread := rfl

theorem interactiveLoop_none (dev : Nat → Bool) (calls : Nat) :
    interactiveLoop dev calls [] = ⟨[.log .prompt], []⟩ := by
  rw [interactiveLoop]
  split
  · rfl
  · rename_i h
    simp [fgets] at h

theorem interactiveLoop_some (dev : Nat → Bool) (calls : Nat) {stdin buf rest : List Char}
    (h : fgets MaxInputLength stdin = some (buf, rest)) :
    interactiveLoop dev calls stdin =
      if stripNewline buf = "quit".toList then ⟨[.log .prompt], rest⟩
      else if (stripNewline buf).length < 4 ∨ (stripNewline buf).length > 4 then
        (interactiveLoop dev calls rest).emit [.log .prompt, .log .lengthInfo]
      else if (stripNewline buf).all isxdigit = false then
        (interactiveLoop dev calls rest).emit [.log .prompt, .log .charsetError]
      else
        (interactiveLoop dev (calls + 1)
            (if (stripNewline buf).length = MaxInputLength - 1 ∧
                (stripNewline buf).getD ((stripNewline buf).length - 1) NUL ≠ '\n'
              then flushLine rest else rest)).emit
          [.log .prompt,
           .log (if (strtoul16 (stripNewline buf)).2 ≠ [] then .formatError
             else if (strtoul16 (stripNewline buf)).1 > 0xffff then .rangeError
             else .validInput (strtoul16 (stripNewline buf)).1),
           .send (toUint16 (strtoul16 (stripNewline buf)).1),
           .log (if dev calls then .sent else .sendFailed)] := by
  rw [interactiveLoop]
  split
  · rename_i h'
    rw [h] at h'
    cases h'
  · rename_i b r h'
    rw [h] at h'
    cases h'
    rfl

/-- A line shorter than 4 characters is read whole. -/
theorem fgets5_short {l : List Char} (rest : List Char) (hl : textLine l = true)
    (hlen : l.length < 4) :
    fgets MaxInputLength (l ++ '\n' :: rest) = some (l ++ ['\n'], rest) :=
  fgets_line 5 l rest hl (by omega)

/-- Of a line of 4 characters or more, one read takes the first 4 characters. -/
theorem fgets5_long {l : List Char} (t : List Char) (hl : textLine l = true)
    (hlen : 4 ≤ l.length) :
    fgets MaxInputLength (l ++ t) = some (l.take 4, l.drop 4 ++ t) := by
  have := fgetsAux_long 4 l t (textLine_no_newline hl) hlen
  cases l with
  | nil => simp at hlen
  | cons c l => simpa [fgets, MaxInputLength] using this

theorem interactiveLoop_short (dev : Nat → Bool) (calls : Nat) {l : List Char}
    (rest : List Char) (hl : textLine l = true) (hlen : l.length < 4) :
    interactiveLoop dev calls (l ++ '\n' :: rest) =
      (interactiveLoop dev calls rest).emit [.log .prompt, .log .lengthInfo] := by
  have hq : l ≠ "quit".toList := fun e => by rw [e] at hlen; simp at hlen
  rw [interactiveLoop_some dev calls (fgets5_short rest hl hlen), stripNewline_line l [] hl,
    if_neg hq, if_pos (Or.inl hlen)]

theorem flushLine_newline (rest : List Char) : flushLine ('\n' :: rest) = rest := by
  simp [flushLine]

theorem flushLine_text {l : List Char} (rest : List Char) (hl : textLine l = true) :
    flushLine (l ++ '\n' :: rest) = rest := by
  induction l with
  | nil => simp [flushLine]
  | cons c l ih =>
    obtain ⟨⟨h1, -⟩, h3⟩ := textLine_cons.1 hl
    simp [flushLine, h1, ih h3]

/-- What one pass of the interactive loop does with a text line of 4 characters or
more: only its first 4 characters are looked at. -/
theorem interactiveLoop_long (dev : Nat → Bool) (calls : Nat) {l : List Char}
    (rest : List Char) (hl : textLine l = true) (hlen : 4 ≤ l.length) :
    interactiveLoop dev calls (l ++ '\n' :: rest) =
      if l.take 4 = "quit".toList then ⟨[.log .prompt], l.drop 4 ++ '\n' :: rest⟩
      else if hexToken (l.take 4) = false then
        (interactiveLoop dev calls (l.drop 4 ++ '\n' :: rest)).emit
          [.log .prompt, .log .charsetError]
      else
        (interactiveLoop dev (calls + 1) rest).emit
          [.log .prompt, .log (.validInput (strtoul16 (l.take 4)).1),
           .send (strtoul16 (l.take 4)).1, .log (if dev calls then .sent else .sendFailed)] := by
  have h4 : (l.take 4).length = 4 := by rw [List.length_take]; omega
  rw [interactiveLoop_some dev calls (fgets5_long ('\n' :: rest) hl hlen),
    stripNewline_text _ (textLine_take hl 4)]
  by_cases hq : l.take 4 = "quit".toList
  · rw [if_pos hq, if_pos hq]
  · rw [if_neg hq, if_neg hq, if_neg (by omega)]
    by_cases hx : (l.take 4).all isxdigit = false
    · have ht : hexToken (l.take 4) = false := by simp [hexToken, h4, hx]
      rw [if_pos hx, if_pos ht]
    · have ht : hexToken (l.take 4) = true := by
        simp only [Bool.not_eq_false] at hx
        simp [hexToken, h4, hx]
      obtain ⟨hv, he, -⟩ := strtoul16_token ht
      obtain ⟨a, b, c, d, habcd, -, -, -, hd⟩ := hexToken_cases ht
      obtain ⟨-, -, -, -, -, d6, -⟩ := hex_facts hd
      have hu : toUint16 (strtoul16 (l.take 4)).1 = (strtoul16 (l.take 4)).1 := by
        unfold toUint16; omega
      have hr : ¬ (strtoul16 (l.take 4)).1 > 0xffff := by omega
      have hfl : flushLine (l.drop 4 ++ '\n' :: rest) = rest := by
        apply flushLine_text
        unfold textLine at *
        rw [List.all_eq_true] at *
        intro c hc
        exact hl c (List.mem_of_mem_drop hc)
      have hlast : (l.take 4).getD ((l.take 4).length - 1) NUL ≠ '\n' := by
        rw [habcd]; simpa using d6
      have hcond : (l.take 4).length = MaxInputLength - 1 ∧
          (l.take 4).getD ((l.take 4).length - 1) NUL ≠ '\n' := ⟨by rw [h4]; rfl, hlast⟩
      rw [if_neg hx, if_pos hcond, hfl, he, hu]
      simp [hr, ht]

theorem interactiveLoop_token (dev : Nat → Bool) (calls : Nat) {l : List Char}
    (rest : List Char) (h : hexToken l = true) :
    interactiveLoop dev calls (l ++ '\n' :: rest) =
      (interactiveLoop dev (calls + 1) rest).emit
        [.log .prompt, .log (.validInput (strtoul16 l).1), .send (strtoul16 l).1,
         .log (if dev calls then .sent else .sendFailed)] := by
  have hlen : l.length = 4 := by
    simp only [hexToken, Bool.and_eq_true, beq_iff_eq] at h
    exact h.1
  have ht : l.take 4 = l := List.take_of_length_le (by omega)
  have hq : l ≠ "quit".toList := fun e => by rw [e] at h; exact absurd h (by decide)
  rw [interactiveLoop_long dev calls rest (hexToken_textLine h) (by omega), ht, if_neg hq,
    if_neg (by simp [h])]

theorem interactiveLoop_nonhex (dev : Nat → Bool) (calls : Nat) {l : List Char}
    (rest : List Char) (hl : textLine l = true) (hlen : l.length = 4)
    (hx : l.all isxdigit = false) (hq : l ≠ "quit".toList) :
    interactiveLoop dev calls (l ++ '\n' :: rest) =
      (interactiveLoop dev calls rest).emit
        [.log .prompt, .log .charsetError, .log .prompt, .log .lengthInfo] := by
  have ht : l.take 4 = l := List.take_of_length_le (by omega)
  have hd : l.drop 4 = [] := List.drop_of_length_le (by omega)
  have hh : hexToken l = false := by simp [hexToken, hlen, hx]
  have hnl : interactiveLoop dev calls ('\n' :: rest) =
      (interactiveLoop dev calls rest).emit [.log .prompt, .log .lengthInfo] :=
    interactiveLoop_short dev calls (l := []) rest (by decide) (by decide)
  rw [interactiveLoop_long dev calls rest hl (by omega), ht, hd, if_neg hq, if_pos hh,
    List.nil_append, hnl]
  rfl

/-! ## Script mode: traces, line boundaries -/

theorem withoutOutcomes_append (s t : List Event) :
    withoutOutcomes (s ++ t) = withoutOutcomes s ++ withoutOutcomes t := by
  induction s with
  | nil => rfl
  | cons e s ih =>
    cases e with
    | log m => by_cases hm : m.isSendOutcome = true <;> simp [withoutOutcomes, ih, hm]
    | sleep us => simp [withoutOutcomes, ih]
    | send c => simp [withoutOutcomes, ih]

theorem sends_withoutOutcomes (t : List Event) : sends (withoutOutcomes t) = sends t := by
  induction t with
  | nil => rfl
  | cons e t ih =>
    cases e with
    | log m => by_cases hm : m.isSendOutcome = true <;> simp [withoutOutcomes, sends, ih, hm]
    | sleep us => simp [withoutOutcomes, sends, ih]
    | send c => simp [withoutOutcomes, sends, ih]

theorem sleeps_withoutOutcomes (t : List Event) : sleeps (withoutOutcomes t) = sleeps t := by
  induction t with
  | nil => rfl
  | cons e t ih =>
    cases e with
    | log m => by_cases hm : m.isSendOutcome = true <;> simp [withoutOutcomes, sleeps, ih, hm]
    | sleep us => simp [withoutOutcomes, sleeps, ih]
    | send c => simp [withoutOutcomes, sleeps, ih]

/-- The return values of `SendNecSignal` only select the outcome diagnostic. -/
theorem scriptLoop_dev_irrelevant (dev1 dev2 : Nat → Bool) (count : Nat) (file : List Char)
    (ln calls1 calls2 : Nat) :
    withoutOutcomes (scriptLoop dev1 ln count calls1 file).trace =
        withoutOutcomes (scriptLoop dev2 ln count calls2 file).trace ∧
      (scriptLoop dev1 ln count calls1 file).unread =
        (scriptLoop dev2 ln count calls2 file).unread ∧
      (scriptLoop dev1 ln count calls1 file).lineNum =
        (scriptLoop dev2 ln count calls2 file).lineNum := by
  suffices H : ∀ (n : Nat) (file : List Char), file.length = n → ∀ ln calls1 calls2,
      withoutOutcomes (scriptLoop dev1 ln count calls1 file).trace =
        withoutOutcomes (scriptLoop dev2 ln count calls2 file).trace ∧
      (scriptLoop dev1 ln count calls1 file).unread =
        (scriptLoop dev2 ln count calls2 file).unread ∧
      (scriptLoop dev1 ln count calls1 file).lineNum =
        (scriptLoop dev2 ln count calls2 file).lineNum from H _ file rfl ln calls1 calls2
  intro n
  induction n using Nat.strong_induction_on with
  | _ n ih =>
    intro file hn ln calls1 calls2
    cases hf : fgets 256 file with
    | none =>
      cases file with
      | nil => simp [scriptLoop_none]
      | cons c s => simp [fgets] at hf
    | some p =>
      obtain ⟨buf, rest⟩ := p
      have hlt : rest.length < n := hn ▸ fgets_length_lt (by decide) hf
      rw [scriptLoop_some dev1 ln count calls1 hf, scriptLoop_some dev2 ln count calls2 hf]
      by_cases hc : count < 64
      · simp only [if_pos hc]
        by_cases e1 : stripNewline buf = "#quit".toList
        · simp only [if_pos e1]
          simp
        simp only [if_neg e1]
        by_cases e2 : stripNewline buf = "#wait".toList
        · simp only [if_pos e2]
          obtain ⟨h1, h2, h3⟩ := ih _ hlt rest rfl (ln + 1) calls1 calls2
          simp only [scriptRun_emit_trace, scriptRun_emit_unread, scriptRun_emit_lineNum,
            withoutOutcomes_append, h1, h2, h3]
          simp
        simp only [if_neg e2]
        by_cases e3 : stripNewline buf = "#wake".toList
        · simp only [if_pos e3]
          obtain ⟨h1, h2, h3⟩ := ih _ hlt rest rfl (ln + 1) calls1 calls2
          simp only [scriptRun_emit_trace, scriptRun_emit_unread, scriptRun_emit_lineNum,
            withoutOutcomes_append, h1, h2, h3]
          simp
        simp only [if_neg e3]
        by_cases e4 : (stripNewline buf).length < 4 ∨ (stripNewline buf).length > 4
        · simp only [if_pos e4]
          simp
        simp only [if_neg e4]
        by_cases e5 : (stripNewline buf).all isxdigit = false
        · simp only [if_pos e5]
          simp
        simp only [if_neg e5]
        obtain ⟨h1, h2, h3⟩ := ih _ hlt rest rfl (ln + 1) (calls1 + 1) (calls2 + 1)
        simp only [scriptRun_emit_trace, scriptRun_emit_unread, scriptRun_emit_lineNum,
          withoutOutcomes_append, h1, h2, h3]
        cases dev1 calls1 <;> cases dev2 calls2 <;>
          simp [withoutOutcomes_append, withoutOutcomes, Msg.isSendOutcome]
      · simp only [if_neg hc]
        simp

/-- A script of `#wait` and `#wake` lines ended by `#quit`: one sleep per line and
nothing else. -/
theorem scriptLoop_directives (dev : Nat → Bool) (ls : List (List Char))
    (h : ∀ l ∈ ls, l = "#wait".toList ∨ l = "#wake".toList) (ln calls : Nat) :
    scriptLoop dev ln 0 calls (textFile (ls ++ ["#quit".toList])) =
      ⟨ls.map (fun l => .sleep (if l = "#wait".toList then 1000000 else 15000000)), [],
        ln + ls.length + 1, 0⟩ := by
  induction ls generalizing ln with
  | nil =>
    have e : textFile ([] ++ ["#quit".toList]) = "#quit".toList ++ '\n' :: [] := by
      simp [textFile]
    rw [e, scriptLoop_quit]
    rfl
  | cons l ls ih =>
    have ih' := ih (fun x hx => h x (List.mem_cons_of_mem _ hx)) (ln + 1)
    rw [List.cons_append, textFile]
    rcases h l (List.mem_cons_self _ _) with rfl | rfl
    · rw [scriptLoop_wait, ih']
      simp [ScriptRun.emit]
      omega
    · rw [scriptLoop_wake, ih']
      simp [ScriptRun.emit]
      omega

/-- One pass of the script loop (with `count = 0`), the branches that cannot be taken
removed: a line that passed both checks is parsed whole and its value fits 16 bits. -/
theorem scriptLoop_step (dev : Nat → Bool) (ln calls : Nat) {file buf rest : List Char}
    (h : fgets 256 file = some (buf, rest)) :
    scriptLoop dev ln 0 calls file =
      if stripNewline buf = "#quit".toList then ⟨[], rest, ln + 1, 0⟩
      else if stripNewline buf = "#wait".toList then
        (scriptLoop dev (ln + 1) 0 calls rest).emit [.sleep 1000000]
      else if stripNewline buf = "#wake".toList then
        (scriptLoop dev (ln + 1) 0 calls rest).emit [.sleep 15000000]
      else if hexToken (stripNewline buf) = false then
        ⟨[.sleep 500000,
          .log (if (stripNewline buf).length = 4 then .charsetError else .lengthError)],
          rest, ln + 1, 0⟩
      else
        (scriptLoop dev (ln + 1) 0 (calls + 1) rest).emit
          [.sleep 500000, .send (strtoul16 (stripNewline buf)).1,
           .log (if dev calls then .sentCode (strtoul16 (stripNewline buf)).1
             else .sendFailed)] := by
  rw [scriptLoop_some dev ln 0 calls h, if_pos (by decide)]
  by_cases e1 : stripNewline buf = "#quit".toList
  · rw [if_pos e1, if_pos e1]
  rw [if_neg e1, if_neg e1]
  by_cases e2 : stripNewline buf = "#wait".toList
  · rw [if_pos e2, if_pos e2]
  rw [if_neg e2, if_neg e2]
  by_cases e3 : stripNewline buf = "#wake".toList
  · rw [if_pos e3, if_pos e3]
  rw [if_neg e3, if_neg e3]
  by_cases e4 : (stripNewline buf).length = 4
  · by_cases e5 : (stripNewline buf).all isxdigit = false
    · have ht : hexToken (stripNewline buf) = false := by simp [hexToken, e4, e5]
      rw [if_neg (by omega), if_pos e5, if_pos ht, if_pos e4]
    · have ht : hexToken (stripNewline buf) = true := by
        simp only [Bool.not_eq_false] at e5
        simp [hexToken, e4, e5]
      obtain ⟨hv, he, -⟩ := strtoul16_token ht
      have hu : toUint16 (strtoul16 (stripNewline buf)).1 = (strtoul16 (stripNewline buf)).1 := by
        unfold toUint16; omega
      have hr : ¬ (strtoul16 (stripNewline buf)).1 > 0xffff := by omega
      rw [if_neg (by omega), if_neg e5, hu]
      simp [he, hr, ht]
  · have ht : hexToken (stripNewline buf) = false := by simp [hexToken, e4]
    rw [if_pos (by omega), if_pos ht, if_neg e4]

/-- Every call of `SendNecSignal` in a trace comes right after a sleep of 500 ms. -/
theorem paced_nil : ∀ (pre : List Event) (c : Nat) (post : List Event),
    ([] : List Event) = pre ++ .send c :: post → ∃ pre', pre = pre' ++ [Event.sleep 500000] := by
  intro pre c post h
  simp at h

theorem paced_cons {e : Event} {t : List Event} (he : ∀ c, e ≠ .send c)
    (ht : ∀ (pre : List Event) (c : Nat) (post : List Event),
      t = pre ++ .send c :: post → ∃ pre', pre = pre' ++ [Event.sleep 500000]) :
    ∀ (pre : List Event) (c : Nat) (post : List Event),
      e :: t = pre ++ .send c :: post → ∃ pre', pre = pre' ++ [Event.sleep 500000] := by
  intro pre c post h
  cases pre with
  | nil =>
    simp only [List.nil_append, List.cons.injEq] at h
    exact absurd h.1 (he c)
  | cons x pre =>
    simp only [List.cons_append, List.cons.injEq] at h
    obtain ⟨pre', hp⟩ := ht pre c post h.2
    exact ⟨x :: pre', by rw [hp]; rfl⟩

theorem paced_sleep_send {d : Nat} {t : List Event}
    (ht : ∀ (pre : List Event) (c : Nat) (post : List Event),
      t = pre ++ .send c :: post → ∃ pre', pre = pre' ++ [Event.sleep 500000]) :
    ∀ (pre : List Event) (c : Nat) (post : List Event),
      .sleep 500000 :: .send d :: t = pre ++ .send c :: post →
        ∃ pre', pre = pre' ++ [Event.sleep 500000] := by
  intro pre c post h
  match pre, h with
  | [], h => simp at h
  | [x], h =>
    simp only [List.cons_append, List.nil_append, List.cons.injEq] at h
    exact ⟨[], by rw [← h.1]; rfl⟩
  | x :: y :: pre, h =>
    simp only [List.cons_append, List.cons.injEq] at h
    obtain ⟨pre', hp⟩ := ht pre c post h.2.2
    exact ⟨x :: y :: pre', by rw [hp]; rfl⟩

theorem scriptLoop_paced (dev : Nat → Bool) (file : List Char) (ln calls : Nat) :
    ∀ (pre : List Event) (c : Nat) (post : List Event),
      (scriptLoop dev ln 0 calls file).trace = pre ++ .send c :: post →
        ∃ pre', pre = pre' ++ [Event.sleep 500000] := by
  suffices H : ∀ (n : Nat) (file : List Char), file.length = n → ∀ ln calls,
      ∀ (pre : List Event) (c : Nat) (post : List Event),
        (scriptLoop dev ln 0 calls file).trace = pre ++ .send c :: post →
          ∃ pre', pre = pre' ++ [Event.sleep 500000] from H _ file rfl ln calls
  intro n
  induction n using Nat.strong_induction_on with
  | _ n ih =>
    intro file hn ln calls
    cases hf : fgets 256 file with
    | none =>
      cases file with
      | nil => rw [scriptLoop_none]; exact paced_nil
      | cons c s => simp [fgets] at hf
    | some p =>
      obtain ⟨buf, rest⟩ := p
      have hlt : rest.length < n := hn ▸ fgets_length_lt (by decide) hf
      rw [scriptLoop_step dev ln calls hf]
      by_cases e1 : stripNewline buf = "#quit".toList
      · rw [if_pos e1]; exact paced_nil
      rw [if_neg e1]
      by_cases e2 : stripNewline buf = "#wait".toList
      · rw [if_pos e2]
        exact paced_cons (by simp) (ih _ hlt rest rfl (ln + 1) calls)
      rw [if_neg e2]
      by_cases e3 : stripNewline buf = "#wake".toList
      · rw [if_pos e3]
        exact paced_cons (by simp) (ih _ hlt rest rfl (ln + 1) calls)
      rw [if_neg e3]
      by_cases e4 : hexToken (stripNewline buf) = false
      · rw [if_pos e4]
        exact paced_cons (by simp) (paced_cons (by simp) paced_nil)
      · rw [if_neg e4]
        exact paced_sleep_send (paced_cons (by simp) (ih _ hlt rest rfl (ln + 1) (calls + 1)))

theorem textFile_append (p q : List (List Char)) :
    textFile (p ++ q) = textFile p ++ textFile q := by
  induction p with
  | nil => rfl
  | cons l p ih => simp [textFile, ih]

/-- A file of newline-terminated lines is empty or ends with a newline. -/
theorem textFile_aligned (p : List (List Char)) :
    textFile p = [] ∨ ∃ s, textFile p = s ++ ['\n'] := by
  induction p with
  | nil => exact Or.inl rfl
  | cons l p ih =>
    right
    rcases ih with h | ⟨s, h⟩
    · exact ⟨l, by simp [textFile, h]⟩
    · exact ⟨l ++ '\n' :: s, by simp [textFile, h]⟩

/-- A read from input that ends with a newline does not depend on what follows, and
leaves input that is empty or again ends with a newline. -/
theorem fgetsAux_aligned (k : Nat) (s t : List Char) :
    fgetsAux k ((s ++ ['\n']) ++ t) =
        ((fgetsAux k (s ++ ['\n'])).1, (fgetsAux k (s ++ ['\n'])).2 ++ t) ∧
      ((fgetsAux k (s ++ ['\n'])).2 = [] ∨
        ∃ s', (fgetsAux k (s ++ ['\n'])).2 = s' ++ ['\n']) := by
  induction k generalizing s with
  | zero => exact ⟨by simp [fgetsAux], Or.inr ⟨s, by simp [fgetsAux]⟩⟩
  | succ k ih =>
    cases s with
    | nil => exact ⟨by simp [fgetsAux], Or.inl (by simp [fgetsAux])⟩
    | cons c s =>
      by_cases hc : c = '\n'
      · subst hc
        exact ⟨by simp [fgetsAux], Or.inr ⟨s, by simp [fgetsAux]⟩⟩
      · obtain ⟨h1, h2⟩ := ih s
        have e : ((c :: s) ++ ['\n']) ++ t = c :: ((s ++ ['\n']) ++ t) := rfl
        have e' : (c :: s) ++ ['\n'] = c :: (s ++ ['\n']) := rfl
        rw [e, e']
        simp only [fgetsAux, if_neg hc, h1]
        exact ⟨trivial, h2⟩

theorem fgets_aligned {n : Nat} {s buf rest : List Char} (t : List Char)
    (hs : s = [] ∨ ∃ s', s = s' ++ ['\n']) (h : fgets n s = some (buf, rest)) :
    fgets n (s ++ t) = some (buf, rest ++ t) ∧ (rest = [] ∨ ∃ s', rest = s' ++ ['\n']) := by
  rcases hs with rfl | ⟨s', rfl⟩
  · simp [fgets] at h
  · obtain ⟨h1, h2⟩ := fgetsAux_aligned (n - 1) s' t
    have hb : fgetsAux (n - 1) (s' ++ ['\n']) = (buf, rest) := by
      cases s' with
      | nil => simpa [fgets] using h
      | cons c s' => simpa [fgets] using h
    rw [hb] at h1 h2
    refine ⟨?_, h2⟩
    cases s' with
    | nil => simpa [fgets] using h1
    | cons c s' => simpa [fgets] using h1

/-- The script loop on a prefix that ends at a line boundary: either it stops inside the
prefix, or it reaches the end of the prefix and goes on with what follows. -/
theorem scriptLoop_upto (dev : Nat → Bool) (s : List Char)
    (hs : s = [] ∨ ∃ s', s = s' ++ ['\n']) (ln calls : Nat) :
    ∃ evs : List Event,
      (∃ un ln', ∀ t, scriptLoop dev ln 0 calls (s ++ t) = ⟨evs, un ++ t, ln', 0⟩) ∨
      (∃ ln' calls', ∀ t, scriptLoop dev ln 0 calls (s ++ t) =
        (scriptLoop dev ln' 0 calls' t).emit evs) := by
  suffices H : ∀ (n : Nat) (s : List Char), s.length = n →
      (s = [] ∨ ∃ s', s = s' ++ ['\n']) → ∀ ln calls, ∃ evs : List Event,
      (∃ un ln', ∀ t, scriptLoop dev ln 0 calls (s ++ t) = ⟨evs, un ++ t, ln', 0⟩) ∨
      (∃ ln' calls', ∀ t, scriptLoop dev ln 0 calls (s ++ t) =
        (scriptLoop dev ln' 0 calls' t).emit evs) from H _ s rfl hs ln calls
  intro n
  induction n using Nat.strong_induction_on with
  | _ n ih =>
    intro s hn hs ln calls
    cases hf : fgets 256 s with
    | none =>
      cases s with
      | nil => exact ⟨[], Or.inr ⟨ln, calls, fun t => by simp [ScriptRun.emit]⟩⟩
      | cons c s => simp [fgets] at hf
    | some p =>
      obtain ⟨buf, rest⟩ := p
      have hlt : rest.length < n := hn ▸ fgets_length_lt (by decide) hf
      have hft := fun t => (fgets_aligned t hs hf).1
      have hrest := (fgets_aligned [] hs hf).2
      by_cases e1 : stripNewline buf = "#quit".toList
      · refine ⟨[], Or.inl ⟨rest, ln + 1, fun t => ?_⟩⟩
        rw [scriptLoop_step dev ln calls (hft t), if_pos e1]
      by_cases e2 : stripNewline buf = "#wait".toList
      · obtain ⟨evs, h | h⟩ := ih _ hlt rest rfl hrest (ln + 1) calls
        · obtain ⟨un, ln', h⟩ := h
          refine ⟨.sleep 1000000 :: evs, Or.inl ⟨un, ln', fun t => ?_⟩⟩
          rw [scriptLoop_step dev ln calls (hft t), if_neg e1, if_pos e2, h t]
          rfl
        · obtain ⟨ln', calls', h⟩ := h
          refine ⟨.sleep 1000000 :: evs, Or.inr ⟨ln', calls', fun t => ?_⟩⟩
          rw [scriptLoop_step dev ln calls (hft t), if_neg e1, if_pos e2, h t]
          rfl
      by_cases e3 : stripNewline buf = "#wake".toList
      · obtain ⟨evs, h | h⟩ := ih _ hlt rest rfl hrest (ln + 1) calls
        · obtain ⟨un, ln', h⟩ := h
          refine ⟨.sleep 15000000 :: evs, Or.inl ⟨un, ln', fun t => ?_⟩⟩
          rw [scriptLoop_step dev ln calls (hft t), if_neg e1, if_neg e2, if_pos e3, h t]
          rfl
        · obtain ⟨ln', calls', h⟩ := h
          refine ⟨.sleep 15000000 :: evs, Or.inr ⟨ln', calls', fun t => ?_⟩⟩
          rw [scriptLoop_step dev ln calls (hft t), if_neg e1, if_neg e2, if_pos e3, h t]
          rfl
      by_cases e4 : hexToken (stripNewline buf) = false
      · refine ⟨[.sleep 500000,
          .log (if (stripNewline buf).length = 4 then .charsetError else .lengthError)],
          Or.inl ⟨rest, ln + 1, fun t => ?_⟩⟩
        rw [scriptLoop_step dev ln calls (hft t), if_neg e1, if_neg e2, if_neg e3, if_pos e4]
      · obtain ⟨evs, h | h⟩ := ih _ hlt rest rfl hrest (ln + 1) (calls + 1)
        · obtain ⟨un, ln', h⟩ := h
          refine ⟨[.sleep 500000, .send (strtoul16 (stripNewline buf)).1,
            .log (if dev calls then .sentCode (strtoul16 (stripNewline buf)).1
              else .sendFailed)] ++ evs, Or.inl ⟨un, ln', fun t => ?_⟩⟩
          rw [scriptLoop_step dev ln calls (hft t), if_neg e1, if_neg e2, if_neg e3,
            if_neg e4, h t]
          rfl
        · obtain ⟨ln', calls', h⟩ := h
          refine ⟨[.sleep 500000, .send (strtoul16 (stripNewline buf)).1,
            .log (if dev calls then .sentCode (strtoul16 (stripNewline buf)).1
              else .sendFailed)] ++ evs, Or.inr ⟨ln', calls', fun t => ?_⟩⟩
          rw [scriptLoop_step dev ln calls (hft t), if_neg e1, if_neg e2, if_neg e3,
            if_neg e4, h t]
          simp [ScriptRun.emit]

/-! ## Receive session: lemmas -/

theorem recvInv_init (data : List Nat) (size : Nat) (flag : Bool) :
    RecvInv data size (recvInit flag) := by
  simp [RecvInv, recvInit, fopenWb]

theorem recvInv_step (startOk : Bool) (data : List Nat) (size : Nat) (a : Actor)
    {s : RecvState} (h : RecvInv data size s) :
    RecvInv data size (recvStep startOk data size a s) := by
  obtain ⟨flag, file, mpc, cpc, armed, tr⟩ := s
  simp only [RecvInv] at h
  cases a <;> cases mpc <;> cases cpc <;> cases armed <;> cases flag <;> cases startOk <;>
    simp_all [RecvInv, recvStep, mainStep, callbackStep, fwrite, fclose]

theorem recvInv_run (startOk : Bool) (data : List Nat) (size : Nat) (sched : List Actor)
    {s : RecvState} (h : RecvInv data size s) :
    RecvInv data size (recvRun startOk data size sched s) := by
  induction sched generalizing s with
  | nil => exact h
  | cons a sched ih => exact ih (recvInv_step startOk data size a h)

theorem recvFailInv_init (flag : Bool) : RecvFailInv (recvInit flag) := by
  simp [RecvFailInv, recvInit]

theorem recvFailInv_step (data : List Nat) (size : Nat) (a : Actor)
    {s : RecvState} (h : RecvFailInv s) :
    RecvFailInv (recvStep false data size a s) := by
  obtain ⟨flag, file, mpc, cpc, armed, tr⟩ := s
  simp only [RecvFailInv] at h
  cases a <;> cases mpc <;> simp_all [RecvFailInv, recvStep, mainStep]

theorem recvFailInv_run (data : List Nat) (size : Nat) (sched : List Actor)
    {s : RecvState} (h : RecvFailInv s) :
    RecvFailInv (recvRun false data size sched s) := by
  induction sched generalizing s with
  | nil => exact h
  | cons a sched ih => exact ih (recvFailInv_step data size a h)

theorem recv_done_armed (data : List Nat) (size : Nat) (sched : List Actor)
    {s : RecvState} (h : RecvInv data size s) (hd : s.mainPc = .done → s.armed = true) :
    (recvRun true data size sched s).mainPc = .done →
      (recvRun true data size sched s).armed = true := by
  induction sched generalizing s with
  | nil => exact hd
  | cons a sched ih =>
    refine ih (recvInv_step true data size a h) ?_
    obtain ⟨flag, file, mpc, cpc, armed, tr⟩ := s
    simp only [RecvInv] at h
    cases a <;> cases mpc <;> cases cpc <;> cases armed <;> cases flag <;>
      simp_all [recvStep, mainStep, callbackStep]

/-- The session armed with success, the callback not yet called. -/
theorem recv_armed_state (flag : Bool) :
    mainStep true (mainStep true (recvInit flag)) =
      ⟨false, fopenWb, .poll, .idle, true, [.startRecvIR, .log .waiting]⟩ := by
  simp [mainStep, recvInit]

/-! ## Both modes: what a run can contain -/

theorem flushLine_length_le (s : List Char) : (flushLine s).length ≤ s.length := by
  induction s with
  | nil => simp [flushLine]
  | cons c s ih =>
    simp only [flushLine]
    split
    · simp
    · exact Nat.le_succ_of_le ih

/-- One pass of the interactive loop, the branches that cannot be taken removed. -/
theorem interactiveLoop_step (dev : Nat → Bool) (calls : Nat) {stdin buf rest : List Char}
    (h : fgets MaxInputLength stdin = some (buf, rest)) :
    interactiveLoop dev calls stdin =
      if stripNewline buf = "quit".toList then ⟨[.log .prompt], rest⟩
      else if hexToken (stripNewline buf) = false then
        (interactiveLoop dev calls rest).emit
          [.log .prompt,
           .log (if (stripNewline buf).length = 4 then .charsetError else .lengthInfo)]
      else
        (interactiveLoop dev (calls + 1) (flushLine rest)).emit
          [.log .prompt, .log (.validInput (strtoul16 (stripNewline buf)).1),
           .send (strtoul16 (stripNewline buf)).1,
           .log (if dev calls then .sent else .sendFailed)] := by
  rw [interactiveLoop_some dev calls h]
  by_cases e1 : stripNewline buf = "quit".toList
  · rw [if_pos e1, if_pos e1]
  rw [if_neg e1, if_neg e1]
  by_cases e4 : (stripNewline buf).length = 4
  · by_cases e5 : (stripNewline buf).all isxdigit = false
    · have ht : hexToken (stripNewline buf) = false := by simp [hexToken, e4, e5]
      rw [if_neg (by omega), if_pos e5, if_pos ht, if_pos e4]
    · have ht : hexToken (stripNewline buf) = true := by
        simp only [Bool.not_eq_false] at e5
        simp [hexToken, e4, e5]
      obtain ⟨hv, he, -⟩ := strtoul16_token ht
      obtain ⟨a, b, c, d, habcd, -, -, -, hd⟩ := hexToken_cases ht
      obtain ⟨-, -, -, -, -, d6, -⟩ := hex_facts hd
      have hu : toUint16 (strtoul16 (stripNewline buf)).1 = (strtoul16 (stripNewline buf)).1 := by
        unfold toUint16; omega
      have hr : ¬ (strtoul16 (stripNewline buf)).1 > 0xffff := by omega
      have hlast : (stripNewline buf).getD ((stripNewline buf).length - 1) NUL ≠ '\n' := by
        rw [habcd]; simpa using d6
      have hcond : (stripNewline buf).length = MaxInputLength - 1 ∧
          (stripNewline buf).getD ((stripNewline buf).length - 1) NUL ≠ '\n' :=
        ⟨by rw [e4]; rfl, hlast⟩
      rw [if_neg (by omega), if_neg e5, if_pos hcond, hu]
      simp [he, hr, ht]
  · have ht : hexToken (stripNewline buf) = false := by simp [hexToken, e4]
    rw [if_pos (by omega), if_pos ht, if_neg e4]

/-- Events that would show a failed parse do not occur in a script run, and every code
passed to `SendNecSignal` is the parsed value of a HexToken. -/
theorem scriptLoop_events_ok (dev : Nat → Bool) (file : List Char) (ln calls : Nat) :
    ∀ e ∈ (scriptLoop dev ln 0 calls file).trace,
      e ≠ .log .formatError ∧ e ≠ .log .rangeError ∧
        ∀ c, e = .send c → ∃ tok, hexToken tok = true ∧ c = (strtoul16 tok).1 := by
  suffices H : ∀ (n : Nat) (file : List Char), file.length = n → ∀ ln calls,
      ∀ e ∈ (scriptLoop dev ln 0 calls file).trace,
        e ≠ .log .formatError ∧ e ≠ .log .rangeError ∧
          ∀ c, e = .send c → ∃ tok, hexToken tok = true ∧ c = (strtoul16 tok).1
    from H _ file rfl ln calls
  intro n
  induction n using Nat.strong_induction_on with
  | _ n ih =>
    intro file hn ln calls
    cases hf : fgets 256 file with
    | none =>
      cases file with
      | nil => rw [scriptLoop_none]; simp
      | cons c s => simp [fgets] at hf
    | some p =>
      obtain ⟨buf, rest⟩ := p
      have hlt : rest.length < n := hn ▸ fgets_length_lt (by decide) hf
      rw [scriptLoop_step dev ln calls hf]
      by_cases e1 : stripNewline buf = "#quit".toList
      · rw [if_pos e1]; simp
      rw [if_neg e1]
      by_cases e2 : stripNewline buf = "#wait".toList
      · rw [if_pos e2]
        intro e he
        rcases List.mem_append.1 he with h | h
        · simp at h; subst h; simp
        · exact ih _ hlt rest rfl (ln + 1) calls e h
      rw [if_neg e2]
      by_cases e3 : stripNewline buf = "#wake".toList
      · rw [if_pos e3]
        intro e he
        rcases List.mem_append.1 he with h | h
        · simp at h; subst h; simp
        · exact ih _ hlt rest rfl (ln + 1) calls e h
      rw [if_neg e3]
      by_cases e4 : hexToken (stripNewline buf) = false
      · rw [if_pos e4]
        intro e he
        by_cases h4 : (stripNewline buf).length = 4 <;> simp [h4] at he <;>
          rcases he with h | h <;> subst h <;> simp
      · rw [if_neg e4]
        simp only [Bool.not_eq_false] at e4
        intro e he
        rcases List.mem_append.1 he with h | h
        · simp at h
          rcases h with h | h | h
          · subst h; simp
          · subst h
            refine ⟨by simp, by simp, ?_⟩
            intro c hc
            exact ⟨stripNewline buf, e4, by simpa using hc.symm⟩
          · subst h
            cases dev calls <;> simp
        · exact ih _ hlt rest rfl (ln + 1) (calls + 1) e h

theorem interactiveLoop_events_ok (dev : Nat → Bool) (stdin : List Char) (calls : Nat) :
    ∀ e ∈ (interactiveLoop dev calls stdin).trace,
      e ≠ .log .formatError ∧ e ≠ .log .rangeError ∧
        ∀ c, e = .send c → ∃ tok, hexToken tok = true ∧ c = (strtoul16 tok).1 := by
  suffices H : ∀ (n : Nat) (stdin : List Char), stdin.length = n → ∀ calls,
      ∀ e ∈ (interactiveLoop dev calls stdin).trace,
        e ≠ .log .formatError ∧ e ≠ .log .rangeError ∧
          ∀ c, e = .send c → ∃ tok, hexToken tok = true ∧ c = (strtoul16 tok).1
    from H _ stdin rfl calls
  intro n
  induction n using Nat.strong_induction_on with
  | _ n ih =>
    intro stdin hn calls
    cases hf : fgets MaxInputLength stdin with
    | none =>
      cases stdin with
      | nil => rw [interactiveLoop_none]; simp
      | cons c s => simp [fgets] at hf
    | some p =>
      obtain ⟨buf, rest⟩ := p
      have hlt : rest.length < n := hn ▸ fgets_length_lt (by decide) hf
      have hlt' : (flushLine rest).length < n :=
        Nat.lt_of_le_of_lt (flushLine_length_le rest) hlt
      rw [interactiveLoop_step dev calls hf]
      by_cases e1 : stripNewline buf = "quit".toList
      · rw [if_pos e1]; simp
      rw [if_neg e1]
      by_cases e4 : hexToken (stripNewline buf) = false
      · rw [if_pos e4]
        intro e he
        rcases List.mem_append.1 he with h | h
        · by_cases h4 : (stripNewline buf).length = 4 <;> simp [h4] at h <;>
            rcases h with h | h <;> subst h <;> simp
        · exact ih _ hlt rest rfl calls e h
      · rw [if_neg e4]
        simp only [Bool.not_eq_false] at e4
        intro e he
        rcases List.mem_append.1 he with h | h
        · simp at h
          rcases h with h | h | h | h
          · subst h; simp
          · subst h; simp
          · subst h
            refine ⟨by simp, by simp, ?_⟩
            intro c hc
            exact ⟨stripNewline buf, e4, by simpa using hc.symm⟩
          · subst h
            cases dev calls <;> simp
        · exact ih _ hlt' (flushLine rest) rfl (calls + 1) e h

/-- Lines that are `#wait`, `#wake` or code lines, read from any state of the loop: one
block of events per line, then the loop goes on with what follows them. -/
theorem scriptLoop_good_lines (dev : Nat → Bool) (p : List (List Char))
    (hp : ∀ l ∈ p, l = "#wait".toList ∨ l = "#wake".toList ∨ hexToken l = true)
    (ln calls : Nat) :
    ∃ evs : List Event,
      (∀ t, scriptLoop dev ln 0 calls (textFile p ++ t) =
        (scriptLoop dev (ln + p.length) 0 (calls + p.countP hexToken) t).emit evs) ∧
      sleepTotal evs = 1000000 * p.count "#wait".toList + 15000000 * p.count "#wake".toList +
        500000 * p.countP hexToken ∧
      sends evs = (p.filter hexToken).map (fun l => (strtoul16 l).1) := by
  induction p generalizing ln calls with
  | nil => exact ⟨[], fun t => by simp [textFile, ScriptRun.emit], by simp [sleepTotal], rfl⟩
  | cons l p ih =>
    have hp' := fun x hx => hp x (List.mem_cons_of_mem _ hx)
    rcases hp l (List.mem_cons_self _ _) with rfl | rfl | hl
    · obtain ⟨evs, h1, h2, h3⟩ := ih hp' (ln + 1) calls
      refine ⟨.sleep 1000000 :: evs, fun t => ?_, ?_, ?_⟩
      · rw [textFile_cons_append, scriptLoop_wait, h1 t]
        have e : List.countP hexToken ("#wait".toList :: p) = List.countP hexToken p := by
          rw [List.countP_cons_of_neg]; decide
        rw [e, List.length_cons, Nat.add_assoc, Nat.add_comm 1]
        rfl
      · have hne : ("#wait".toList == "#wake".toList) = false := by decide
        have e : List.countP hexToken ("#wait".toList :: p) = List.countP hexToken p := by
          rw [List.countP_cons_of_neg]; decide
        simp only [sleepTotal, h2, List.count_cons_self, List.count_cons, hne, e]
        simp
        omega
      · rw [List.filter_cons_of_neg (by decide)]
        simpa [sends] using h3
    · obtain ⟨evs, h1, h2, h3⟩ := ih hp' (ln + 1) calls
      refine ⟨.sleep 15000000 :: evs, fun t => ?_, ?_, ?_⟩
      · rw [textFile_cons_append, scriptLoop_wake, h1 t]
        have e : List.countP hexToken ("#wake".toList :: p) = List.countP hexToken p := by
          rw [List.countP_cons_of_neg]; decide
        rw [e, List.length_cons, Nat.add_assoc, Nat.add_comm 1]
        rfl
      · have hne : ("#wake".toList == "#wait".toList) = false := by decide
        have e : List.countP hexToken ("#wake".toList :: p) = List.countP hexToken p := by
          rw [List.countP_cons_of_neg]; decide
        simp only [sleepTotal, h2, List.count_cons_self, List.count_cons, hne, e]
        simp
        omega
      · rw [List.filter_cons_of_neg (by decide)]
        simpa [sends] using h3
    · obtain ⟨evs, h1, h2, h3⟩ := ih hp' (ln + 1) (calls + 1)
      have hw : l ≠ "#wait".toList := fun e => by rw [e] at hl; exact absurd hl (by decide)
      have hk : l ≠ "#wake".toList := fun e => by rw [e] at hl; exact absurd hl (by decide)
      have e : List.countP hexToken (l :: p) = List.countP hexToken p + 1 :=
        List.countP_cons_of_pos _ _ hl
      refine ⟨[.sleep 500000, .send (strtoul16 l).1,
        .log (if dev calls then .sentCode (strtoul16 l).1 else .sendFailed)] ++ evs,
        fun t => ?_, ?_, ?_⟩
      · rw [textFile_cons_append, scriptLoop_token dev ln calls _ hl, h1 t, e,
          List.length_cons]
        have e1 : ln + 1 + p.length = ln + (p.length + 1) := by omega
        have e2 : calls + 1 + List.countP hexToken p = calls + (List.countP hexToken p + 1) := by
          omega
        rw [e1, e2]
        simp [ScriptRun.emit]
      · have c1 : List.count "#wait".toList (l :: p) = List.count "#wait".toList p :=
          List.count_cons_of_ne (Ne.symm hw) p
        have c2 : List.count "#wake".toList (l :: p) = List.count "#wake".toList p :=
          List.count_cons_of_ne (Ne.symm hk) p
        rw [sleepTotal_append, h2, c1, c2, e]
        simp [sleepTotal]
        omega
      · rw [sends_append, h3, List.filter_cons_of_pos hl]
        simp [sends]

theorem fgetsAux_buf_length_le (k : Nat) (s : List Char) : (fgetsAux k s).1.length ≤ k := by
  induction k generalizing s with
  | zero => simp [fgetsAux]
  | succ k ih =>
    cases s with
    | nil => simp [fgetsAux]
    | cons c s =>
      simp only [fgetsAux]
      split
      · simp
      · simpa using ih s

theorem fgets_buf_length_le {n : Nat} {s buf rest : List Char}
    (h : fgets n s = some (buf, rest)) : buf.length ≤ n - 1 := by
  cases s with
  | nil => simp [fgets] at h
  | cons c s =>
    simp only [fgets, Option.some.injEq] at h
    have h1 : buf = (fgetsAux (n - 1) (c :: s)).1 := (congrArg Prod.fst h).symm
    rw [h1]
    exact fgetsAux_buf_length_le _ _

/-! ## Claims -/

/-- C1 (failing input): a script of 70 valid code lines.  The loop condition tests
`count < 64`, but `count` is never incremented, so all 70 lines are transmitted
instead of the first 64. -/
theorem script_70_lines_all_transmitted (dev : Nat → Bool) :
    sends (runScript dev (textFile (List.replicate 70 "1A2B".toList))).trace =
        List.replicate 70 0x1A2B ∧
      (runScript dev (textFile (List.replicate 70 "1A2B".toList))).count = 0 ∧
      (runScript dev (textFile (List.replicate 70 "1A2B".toList))).unread = [] := by
  have hv : (strtoul16 "1A2B".toList).1 = 0x1A2B := by
    simp [strtoul16, isspace, skip0x, hexVal, strtoulDigits, ULONG_MAX]
  have h : ∀ l ∈ List.replicate 70 "1A2B".toList, hexToken l = true := by
    intro l hl
    rw [List.eq_of_mem_replicate hl]
    decide
  obtain ⟨h1, h2, -⟩ := scriptLoop_tokens dev _ h 0 0
  refine ⟨?_, scriptLoop_count _ _ _ _ _, h2⟩
  unfold runScript
  rw [h1, List.map_replicate, hv]

/-- C2: in a script whose first line that is neither a directive nor a 4-hex-digit
token comes before any `#quit`, the player transmits exactly the values of the code
lines before that line, in order; the only validation error reported is the one for
that line (`lengthError` when its length is not 4, `charsetError` otherwise) and it is
the last event of the run; everything after the part of the file read for that line
stays unread, so nothing of a later line is transmitted. -/
theorem script_aborts_at_first_invalid_line (dev : Nat → Bool) (p : List (List Char))
    (b later : List Char)
    (hp : ∀ l ∈ p, l = "#wait".toList ∨ l = "#wake".toList ∨ hexToken l = true)
    (hb : textLine b = true)
    (hd : b ≠ "#quit".toList ∧ b ≠ "#wait".toList ∧ b ≠ "#wake".toList)
    (hbad : hexToken b = false) :
    sends (runScript dev (textFile p ++ (b ++ '\n' :: later))).trace =
        (p.filter hexToken).map (fun l => (strtoul16 l).1) ∧
      (logs (runScript dev (textFile p ++ (b ++ '\n' :: later))).trace).filter
          Msg.isValidationError =
        [if b.length = 4 then .charsetError else .lengthError] ∧
      (runScript dev (textFile p ++ (b ++ '\n' :: later))).trace.getLast? =
        some (.log (if b.length = 4 then .charsetError else .lengthError)) ∧
      (runScript dev (textFile p ++ (b ++ '\n' :: later))).unread =
        (if b.length < 255 then later else b.drop 255 ++ '\n' :: later) :=
  scriptLoop_lines_then_bad dev p later hp hb hd.1 hd.2.1 hd.2.2 hbad 0 0

/-- C2 (witness): the script `1A2B`, `3C4D`, `xyz`, `5E6F`, `7890` transmits 0x1A2B and
0x3C4D, reports the length error and leaves the last two lines unread. -/
theorem script_aborts_at_first_invalid_line_witness :
    sends (runScript (fun _ => true) (textFile ["1A2B".toList, "3C4D".toList, "xyz".toList,
        "5E6F".toList, "7890".toList])).trace = [0x1A2B, 0x3C4D] ∧
      (logs (runScript (fun _ => true) (textFile ["1A2B".toList, "3C4D".toList, "xyz".toList,
        "5E6F".toList, "7890".toList])).trace).filter Msg.isValidationError = [.lengthError] ∧
      (runScript (fun _ => true) (textFile ["1A2B".toList, "3C4D".toList, "xyz".toList,
        "5E6F".toList, "7890".toList])).trace.getLast? = some (.log .lengthError) ∧
      (runScript (fun _ => true) (textFile ["1A2B".toList, "3C4D".toList, "xyz".toList,
        "5E6F".toList, "7890".toList])).unread = textFile ["5E6F".toList, "7890".toList] := by
  have h := script_aborts_at_first_invalid_line (fun _ => true)
    ["1A2B".toList, "3C4D".toList] "xyz".toList (textFile ["5E6F".toList, "7890".toList])
    (by decide) (by decide) (by decide) (by decide)
  have hv : (["1A2B".toList, "3C4D".toList].filter hexToken).map (fun l => (strtoul16 l).1) =
      [0x1A2B, 0x3C4D] := by decide
  rw [hv] at h
  exact h

/-- C3: for every token of exactly 4 hex digits, the base-16 parse made by both modes
consumes the token and yields a value in [0, 0xFFFF]; printing that value with `%04X`
gives the token in upper case, so two tokens with the same value are equal up to case.
Both modes hand exactly this value to `SendNecSignal` and print it in that form. -/
theorem hex_token_parse_render (tok : List Char) (h : hexToken tok = true) :
    (strtoul16 tok).1 ≤ 0xFFFF ∧ (strtoul16 tok).2 = [] ∧
      fmt04X (strtoul16 tok).1 = tok.map Char.toUpper ∧
      (∀ tok', hexToken tok' = true → (strtoul16 tok').1 = (strtoul16 tok).1 →
        tok'.map Char.toUpper = tok.map Char.toUpper) ∧
      (∀ dev calls rest, interactiveLoop dev calls (tok ++ '\n' :: rest) =
        (interactiveLoop dev (calls + 1) rest).emit
          [.log .prompt, .log (.validInput (strtoul16 tok).1), .send (strtoul16 tok).1,
           .log (if dev calls then .sent else .sendFailed)]) ∧
      (∀ dev ln calls rest, scriptLoop dev ln 0 calls (tok ++ '\n' :: rest) =
        (scriptLoop dev (ln + 1) 0 (calls + 1) rest).emit
          [.sleep 500000, .send (strtoul16 tok).1,
           .log (if dev calls then .sentCode (strtoul16 tok).1 else .sendFailed)]) ∧
      Msg.text (.validInput (strtoul16 tok).1) =
        "INFO: Valid input - 0x".toList ++ tok.map Char.toUpper ++ ['\n'] ∧
      Msg.text (.sentCode (strtoul16 tok).1) =
        "INFO: Sent IR signal 0x".toList ++ tok.map Char.toUpper ++ ['\n'] := by
  obtain ⟨hv, he, hf⟩ := strtoul16_token h
  refine ⟨by omega, he, hf, ?_, ?_, ?_, ?_, ?_⟩
  · intro tok' h' hv'
    rw [← hf, ← (strtoul16_token h').2.2, hv']
  · intro dev calls rest
    exact interactiveLoop_token dev calls rest h
  · intro dev ln calls rest
    exact scriptLoop_token dev ln calls rest h
  · simp [Msg.text, hf]
  · simp [Msg.text, hf]

/-- C3 (witness): the mixed-case token `1a2B` parses to 0x1A2B and prints as `1A2B`. -/
theorem hex_token_parse_render_witness :
    hexToken "1a2B".toList = true ∧ (strtoul16 "1a2B".toList).1 ≤ 0xFFFF ∧
      fmt04X (strtoul16 "1a2B".toList).1 = "1A2B".toList :=
  ⟨by decide, (hex_token_parse_render "1a2B".toList (by decide)).1,
    (hex_token_parse_render "1a2B".toList (by decide)).2.2.1⟩

/-- C4 (failing input): the interactive line `12345`.  Its length is 5, yet no length
diagnostic is written: the 5-byte buffer makes `fgets` return `1234`, which is
transmitted as 0x1234, and the rest of the line is discarded. -/
theorem interactive_long_line_transmitted (dev : Nat → Bool) :
    runInteractive dev "12345\n".toList =
      ⟨[.log .prompt, .log (.validInput 0x1234), .send 0x1234,
        .log (if dev 0 then .sent else .sendFailed), .log .prompt], []⟩ := by
  have hv : (strtoul16 "1234".toList).1 = 0x1234 := by decide
  have h := interactiveLoop_long dev 0 (l := "12345".toList) [] (by decide) (by decide)
  have e : "12345".toList ++ ['\n'] = "12345\n".toList := by decide
  rw [e] at h
  unfold runInteractive
  rw [h, if_neg (by decide), if_neg (by decide), interactiveLoop_none]
  have e2 : List.take 4 "12345".toList = "1234".toList := by decide
  rw [e2, hv]
  rfl

/-- C5 (failing input): the interactive lines `quitx` and `quit ` (trailing blank).
Neither is the string `quit`, yet each ends the session: `fgets` returns only the first
4 characters, which compare equal to `quit`; the code line `1A2B` that follows is
never read. -/
theorem interactive_quit_prefix_ends_session (dev : Nat → Bool) :
    runInteractive dev "quitx\n1A2B\n".toList = ⟨[.log .prompt], "x\n1A2B\n".toList⟩ ∧
      runInteractive dev "quit \n1A2B\n".toList = ⟨[.log .prompt], " \n1A2B\n".toList⟩ := by
  have h1 := interactiveLoop_long dev 0 (l := "quitx".toList) "1A2B\n".toList
    (by decide) (by decide)
  have h2 := interactiveLoop_long dev 0 (l := "quit ".toList) "1A2B\n".toList
    (by decide) (by decide)
  have e1 : "quitx".toList ++ '\n' :: "1A2B\n".toList = "quitx\n1A2B\n".toList := by decide
  have e2 : "quit ".toList ++ '\n' :: "1A2B\n".toList = "quit \n1A2B\n".toList := by decide
  rw [e1, if_pos (by decide)] at h1
  rw [e2, if_pos (by decide)] at h2
  exact ⟨h1, h2⟩

/-- C6: in the interactive session a 4-character line with a non-hex character that is
not `quit`, met in any state of the loop, gets the charset diagnostic and no call of
`SendNecSignal`, and the session goes on (the newline left behind by the 4-character
read is then taken as an empty line): the valid code line after it is transmitted with
its own value.  In script mode the same line ends the run, and the code line after it
stays unread. -/
theorem interactive_nonhex_line_continues (dev : Nat → Bool) (calls ln : Nat)
    (l tok rest : List Char) (hl : textLine l = true) (hlen : l.length = 4)
    (hx : l.all isxdigit = false) (hq : l ≠ "quit".toList) (ht : hexToken tok = true) :
    interactiveLoop dev calls (l ++ '\n' :: (tok ++ '\n' :: rest)) =
        (interactiveLoop dev (calls + 1) rest).emit
          [.log .prompt, .log .charsetError, .log .prompt, .log .lengthInfo,
           .log .prompt, .log (.validInput (strtoul16 tok).1), .send (strtoul16 tok).1,
           .log (if dev calls then .sent else .sendFailed)] ∧
      scriptLoop dev ln 0 calls (l ++ '\n' :: (tok ++ '\n' :: rest)) =
        ⟨[.sleep 500000, .log .charsetError], tok ++ '\n' :: rest, ln + 1, 0⟩ := by
  constructor
  · rw [interactiveLoop_nonhex dev calls _ hl hlen hx hq, interactiveLoop_token dev calls rest ht]
    rfl
  · have hh : hexToken l = false := by simp [hexToken, hlen, hx]
    have e1 : l ≠ "#quit".toList := fun e => by rw [e] at hlen; simp at hlen
    have e2 : l ≠ "#wait".toList := fun e => by rw [e] at hlen; simp at hlen
    have e3 : l ≠ "#wake".toList := fun e => by rw [e] at hlen; simp at hlen
    rw [scriptLoop_bad dev ln calls _ hl e1 e2 e3 hh]
    simp [hlen]

/-- C6 (witness): the interactive input `12G3`, `1A2B` gives the charset diagnostic for
the first line and transmits 0x1A2B for the second; as a script it stops at `12G3`. -/
theorem interactive_nonhex_line_continues_witness :
    interactiveLoop (fun _ => true) 0 ("12G3".toList ++ '\n' :: ("1A2B".toList ++ '\n' :: [])) =
        (interactiveLoop (fun _ => true) 1 []).emit
          [.log .prompt, .log .charsetError, .log .prompt, .log .lengthInfo,
           .log .prompt, .log (.validInput (strtoul16 "1A2B".toList).1),
           .send (strtoul16 "1A2B".toList).1, .log .sent] ∧
      scriptLoop (fun _ => true) 0 0 0 ("12G3".toList ++ '\n' :: ("1A2B".toList ++ '\n' :: [])) =
        ⟨[.sleep 500000, .log .charsetError], "1A2B".toList ++ '\n' :: [], 1, 0⟩ :=
  interactive_nonhex_line_continues (fun _ => true) 0 0 "12G3".toList "1A2B".toList []
    (by decide) (by decide) (by decide) (by decide) (by decide)

/-- C7: the values returned by `SendNecSignal` never change the course of a script
run.  For every script and any two devices, the two runs agree on everything except
the diagnostics reporting the outcome of a call: same codes passed to `SendNecSignal`,
same sleeps, same validation diagnostics, all in the same order, and the loop is left
at the same place of the file with the same line number. -/
theorem script_run_independent_of_send_result (dev1 dev2 : Nat → Bool) (file : List Char) :
    withoutOutcomes (runScript dev1 file).trace = withoutOutcomes (runScript dev2 file).trace ∧
      sends (runScript dev1 file).trace = sends (runScript dev2 file).trace ∧
      sleeps (runScript dev1 file).trace = sleeps (runScript dev2 file).trace ∧
      (runScript dev1 file).unread = (runScript dev2 file).unread ∧
      (runScript dev1 file).lineNum = (runScript dev2 file).lineNum := by
  obtain ⟨h1, h2, h3⟩ := scriptLoop_dev_irrelevant dev1 dev2 0 file 0 0 0
  refine ⟨h1, ?_, ?_, h2, h3⟩
  · have := congrArg sends h1
    rwa [sends_withoutOutcomes, sends_withoutOutcomes] at this
  · have := congrArg sleeps h1
    rwa [sleeps_withoutOutcomes, sleeps_withoutOutcomes] at this

/-- C8: a `#wait` line read by the script loop causes one sleep of 1 second, a `#wake`
line one sleep of 15 seconds; neither causes a call of `SendNecSignal` and the loop goes
on with the next line.  So a script of `#wait` and `#wake` lines, in any order, ended by
`#quit` sleeps one second per `#wait` plus 15 seconds per `#wake` and transmits
nothing. -/
theorem script_wait_wake_sleeps (dev : Nat → Bool) (ls : List (List Char))
    (h : ∀ l ∈ ls, l = "#wait".toList ∨ l = "#wake".toList) :
    (∀ ln calls rest, scriptLoop dev ln 0 calls ("#wait".toList ++ '\n' :: rest) =
        (scriptLoop dev (ln + 1) 0 calls rest).emit [.sleep 1000000]) ∧
      (∀ ln calls rest, scriptLoop dev ln 0 calls ("#wake".toList ++ '\n' :: rest) =
        (scriptLoop dev (ln + 1) 0 calls rest).emit [.sleep 15000000]) ∧
      (runScript dev (textFile (ls ++ ["#quit".toList]))).trace =
        ls.map (fun l => .sleep (if l = "#wait".toList then 1000000 else 15000000)) ∧
      sleepTotal (runScript dev (textFile (ls ++ ["#quit".toList]))).trace =
        (ls.count "#wait".toList + 15 * ls.count "#wake".toList) * 1000000 ∧
      sends (runScript dev (textFile (ls ++ ["#quit".toList]))).trace = [] := by
  have hrun := scriptLoop_directives dev ls h 0 0
  refine ⟨fun ln calls rest => scriptLoop_wait dev ln calls rest,
    fun ln calls rest => scriptLoop_wake dev ln calls rest, ?_, ?_, ?_⟩
  · unfold runScript
    rw [hrun]
  · unfold runScript
    rw [hrun]
    clear hrun
    induction ls with
    | nil => simp [sleepTotal]
    | cons l ls ih =>
      have ih' := ih (fun x hx => h x (List.mem_cons_of_mem _ hx))
      simp only at ih'
      rcases h l (List.mem_cons_self _ _) with rfl | rfl
      · have hne : ("#wait".toList == "#wake".toList) = false := by decide
        simp only [List.map_cons, sleepTotal, ih', List.count_cons_self, List.count_cons, hne]
        simp
        omega
      · have hne : ("#wake".toList == "#wait".toList) = false := by decide
        have hne' : ¬ "#wake".toList = "#wait".toList := by decide
        simp only [List.map_cons, sleepTotal, ih', List.count_cons_self, List.count_cons, hne,
          if_neg hne']
        simp
        omega
  · unfold runScript
    rw [hrun]
    clear hrun
    induction ls with
    | nil => rfl
    | cons l ls ih =>
      simpa [sends] using ih (fun x hx => h x (List.mem_cons_of_mem _ hx))

/-- C8 (witness): the script `#wait`, `#quit` sleeps exactly 1 second and transmits
nothing. -/
theorem script_wait_wake_sleeps_witness :
    (runScript (fun _ => true) (textFile ["#wait".toList, "#quit".toList])).trace =
        [.sleep 1000000] ∧
      sleepTotal (runScript (fun _ => true) (textFile ["#wait".toList, "#quit".toList])).trace =
        1000000 ∧
      sends (runScript (fun _ => true) (textFile ["#wait".toList, "#quit".toList])).trace = [] :=
  ⟨(script_wait_wake_sleeps (fun _ => true) ["#wait".toList] (by decide)).2.2.1,
    (script_wait_wake_sleeps (fun _ => true) ["#wait".toList] (by decide)).2.2.2.1,
    (script_wait_wake_sleeps (fun _ => true) ["#wait".toList] (by decide)).2.2.2.2⟩

/-- C9: in the trace of every script run, each call of `SendNecSignal` comes directly
after a sleep of 500 ms (the pacing sleep of the pass of the loop that makes the call:
the sleeps of the directives last 1 s and 15 s), so no code is transmitted without the
pacing delay right before it and no two calls are adjacent. -/
theorem script_send_preceded_by_pacing (dev : Nat → Bool) (file : List Char) :
    (∀ (pre : List Event) (c : Nat) (post : List Event),
      (runScript dev file).trace = pre ++ .send c :: post →
        ∃ pre', pre = pre' ++ [Event.sleep 500000]) ∧
    (∀ (pre : List Event) (c d : Nat) (post : List Event),
      (runScript dev file).trace ≠ pre ++ .send c :: .send d :: post) := by
  have hp := scriptLoop_paced dev file 0 0
  refine ⟨hp, ?_⟩
  intro pre c d post h
  have h' : (runScript dev file).trace = (pre ++ [.send c]) ++ .send d :: post := by
    rw [h]; simp
  obtain ⟨pre', e⟩ := hp _ _ _ h'
  have := congrArg List.getLast? e
  simp at this

/-- C9 (witness): in the run of the one-line script `1A2B` the call of `SendNecSignal`
is the second event, right after the 500 ms sleep. -/
theorem script_send_preceded_by_pacing_witness :
    (runScript (fun _ => true) (textFile ["1A2B".toList])).trace =
        [.sleep 500000] ++ .send 0x1A2B :: [.log (.sentCode 0x1A2B)] ∧
      ∃ pre', [Event.sleep 500000] = pre' ++ [Event.sleep 500000] := by
  have hv : (strtoul16 "1A2B".toList).1 = 0x1A2B := by decide
  have h : (runScript (fun _ => true) (textFile ["1A2B".toList])).trace =
      [.sleep 500000] ++ .send 0x1A2B :: [.log (.sentCode 0x1A2B)] := by
    unfold runScript
    rw [textFile, textFile, scriptLoop_token _ 0 0 [] (by decide), scriptLoop_none, hv]
    rfl
  exact ⟨h, (script_send_preceded_by_pacing (fun _ => true) _).1 _ _ _ h⟩

/-- C10: `#quit` ends a script run and nothing after it matters.  For all lists of
lines `p` and `r`, the run of `p`, `#quit`, `r` has the same trace (sleeps, calls,
diagnostics) as the run of `p`, `#quit`, which is also the trace of the run of `p`
alone: the `#quit` line adds nothing.  A `#quit` line read by the loop ends it at once.
The empty script and the script `#quit` produce no event at all. -/
theorem script_quit_ends_run (dev : Nat → Bool) (p r : List (List Char)) :
    (runScript dev (textFile (p ++ ["#quit".toList] ++ r))).trace =
        (runScript dev (textFile (p ++ ["#quit".toList]))).trace ∧
      (runScript dev (textFile (p ++ ["#quit".toList]))).trace =
        (runScript dev (textFile p)).trace ∧
      (∀ ln calls rest, scriptLoop dev ln 0 calls ("#quit".toList ++ '\n' :: rest) =
        ⟨[], rest, ln + 1, 0⟩) ∧
      runScript dev [] = ⟨[], [], 0, 0⟩ ∧
      runScript dev (textFile ["#quit".toList]) = ⟨[], [], 1, 0⟩ := by
  have hq : ∀ x, textFile (["#quit".toList] ++ x) = "#quit".toList ++ '\n' :: textFile x := by
    intro x; rfl
  have key : ∀ x : List (List Char),
      (runScript dev (textFile (p ++ ["#quit".toList] ++ x))).trace =
        (runScript dev (textFile p)).trace := by
    intro x
    unfold runScript
    rw [List.append_assoc, textFile_append, hq]
    obtain ⟨evs, h | h⟩ := scriptLoop_upto dev (textFile p) (textFile_aligned p) 0 0
    · obtain ⟨un, ln', h⟩ := h
      have h0 := h []
      rw [List.append_nil] at h0
      rw [h, h0]
    · obtain ⟨ln', calls', h⟩ := h
      have h0 := h []
      rw [List.append_nil] at h0
      rw [h, h0, scriptLoop_quit, scriptLoop_none]
      rfl
  refine ⟨?_, ?_, fun ln calls rest => scriptLoop_quit dev ln calls rest, ?_, ?_⟩
  · rw [key r]
    have := key []
    rw [List.append_nil] at this
    rw [this]
  · have := key []
    rw [List.append_nil] at this
    exact this
  · exact scriptLoop_none dev 0 0 0
  · exact scriptLoop_quit dev 0 0 []

/-- C11: raw signals round-trip verbatim.  Called with a buffer `data` of
`data.length` bytes in a session armed with success, the capture callback leaves a file
holding exactly the bytes of `data`, no header and no re-encoding; this holds for every
interleaving of the callback with the polling loop once the session is over.  Send mode
run on that file makes exactly one call of `SendIR`, with carrier 38000 and a buffer
whose bytes and length are those of `data`. -/
theorem raw_signal_round_trip (data : List Nat) (flag sendOk : Bool) (sched : List Actor) :
    (test_callback data data.length (mainStep true (mainStep true (recvInit flag)))).io_file =
        ⟨data, false⟩ ∧
      ((recvRun true data data.length sched (recvInit flag)).mainPc = .done →
        (recvRun true data data.length sched (recvInit flag)).io_file = ⟨data, false⟩) ∧
      sendMode sendOk (fopenRb data) =
        ([.sendIR 38000 data data.length, .log (if sendOk then .sentIR else .sendFailed)],
          ⟨data, false⟩) := by
  refine ⟨?_, ?_, ?_⟩
  · rw [recv_armed_state]
    simp [test_callback, callbackStep, fwrite, fclose, fopenWb]
  · intro hd
    obtain ⟨-, -, -, h4, h5, -, -, h8⟩ :=
      recvInv_run true data data.length sched (recvInv_init data data.length flag)
    have ha := recv_done_armed data data.length sched (recvInv_init data data.length flag)
      (by simp [recvInit]) hd
    have hr := (h4 (by rw [hd]; simp)).1 (h5 hd ha)
    simpa using h8 (Or.inr hr)
  · simp [sendMode, fopenRb, fclose]

/-- C11 (witness): a session in which the callback delivers the bytes 1, 2, 3 between
two polls ends with the file holding 1, 2, 3. -/
theorem raw_signal_round_trip_witness :
    (recvRun true [1, 2, 3] 3
        [.main, .main, .main, .callback, .callback, .callback, .callback, .main]
        (recvInit true)).mainPc = .done ∧
      (recvRun true [1, 2, 3] 3
        [.main, .main, .main, .callback, .callback, .callback, .callback, .main]
        (recvInit true)).io_file = ⟨[1, 2, 3], false⟩ :=
  ⟨by decide, (raw_signal_round_trip [1, 2, 3] true true
    [.main, .main, .main, .callback, .callback, .callback, .callback, .main]).2.1
      (by decide)⟩

/-- C14: in a receive session, under every interleaving of the callback with the main
flow, arming clears the completion flag; afterwards the flag is set only once the
callback has returned, which is after it wrote the `size` bytes and closed the file.  So
when the wait loop of a session armed with success is left, the callback has fired and
the buffer is in the closed file.  When `StartRecvIR` fails, the session writes the
error and ends; it never enters the wait loop and never sleeps. -/
theorem receive_flag_follows_persisted_buffer (flag startOk : Bool) (data : List Nat)
    (size : Nat) (sched : List Actor) :
    (mainStep startOk (recvInit flag)).signal_received = false ∧
      ((recvRun startOk data size sched (recvInit flag)).mainPc ≠ .arm →
        (recvRun startOk data size sched (recvInit flag)).signal_received = true →
        (recvRun startOk data size sched (recvInit flag)).cbPc = .returned ∧
          (recvRun startOk data size sched (recvInit flag)).io_file =
            ⟨data.take size, false⟩) ∧
      ((recvRun startOk data size sched (recvInit flag)).mainPc = .done →
        (recvRun startOk data size sched (recvInit flag)).armed = true →
        (recvRun startOk data size sched (recvInit flag)).cbPc = .returned ∧
          (recvRun startOk data size sched (recvInit flag)).io_file =
            ⟨data.take size, false⟩) ∧
      (startOk = false →
        (recvRun startOk data size sched (recvInit flag)).mainPc ≠ .poll ∧
        (∀ us, RawEvent.usleep us ∉ (recvRun startOk data size sched (recvInit flag)).trace) ∧
        ((recvRun startOk data size sched (recvInit flag)).mainPc = .done →
          (recvRun startOk data size sched (recvInit flag)).trace =
            [.startRecvIR, .log .recvFailed])) := by
  obtain ⟨-, -, -, h4, h5, -, -, h8⟩ :=
    recvInv_run startOk data size sched (recvInv_init data size flag)
  refine ⟨by simp [mainStep, recvInit], ?_, ?_, ?_⟩
  · intro hne hf
    have hr := (h4 hne).1 hf
    exact ⟨hr, h8 (Or.inr hr)⟩
  · intro hd ha
    have hr := (h4 (by rw [hd]; simp)).1 (h5 hd ha)
    exact ⟨hr, h8 (Or.inr hr)⟩
  · intro hs
    subst hs
    obtain ⟨-, -, -, h | h⟩ := recvFailInv_run data size sched (recvFailInv_init flag)
    · obtain ⟨hm, ht⟩ := h
      refine ⟨?_, ?_, ?_⟩
      · rcases hm with hm | hm
        · rw [hm]; simp
        · rw [hm.1]; simp
      · intro us; rw [ht]; simp
      · intro hd
        rcases hm with hm | hm
        · rw [hm] at hd; cases hd
        · rw [hm.1] at hd; cases hd
    · obtain ⟨hm, -, ht⟩ := h
      refine ⟨by rw [hm]; simp, ?_, fun _ => ht⟩
      intro us; rw [ht]; simp

/-- C14 (witness): the wait loop polls once, the callback delivers 1, 2, 3, the next
poll leaves the loop: the file is complete and closed.  With `StartRecvIR` failing the
session is over after the error message. -/
theorem receive_flag_follows_persisted_buffer_witness :
    ((recvRun true [1, 2, 3] 3
        [.main, .main, .main, .callback, .callback, .callback, .callback, .main]
        (recvInit true)).cbPc = .returned ∧
      (recvRun true [1, 2, 3] 3
        [.main, .main, .main, .callback, .callback, .callback, .callback, .main]
        (recvInit true)).io_file = ⟨[1, 2, 3], false⟩) ∧
      (recvRun false [1, 2, 3] 3 [.main, .main] (recvInit true)).trace =
        [.startRecvIR, .log .recvFailed] :=
  ⟨(receive_flag_follows_persisted_buffer true true [1, 2, 3] 3
      [.main, .main, .main, .callback, .callback, .callback, .callback, .main]).2.2.1
      (by decide) (by decide),
    ((receive_flag_follows_persisted_buffer true false [1, 2, 3] 3
      [.main, .main]).2.2.2 rfl).2.2 (by decide)⟩

/-- C15 (failing input): a receive session whose `StartRecvIR` fails.  The session
ends with the destination handle still open, under every interleaving: `fclose` is
called only by the callback, which never runs in such a session. -/
theorem receive_failed_start_leaves_handle_open (flag : Bool) (data : List Nat) (size : Nat)
    (sched : List Actor) :
    (recvRun false data size [.main, .main] (recvInit flag)).mainPc = .done ∧
      (recvRun false data size [.main, .main] (recvInit flag)).io_file.isOpen = true ∧
      (recvRun false data size sched (recvInit flag)).io_file.isOpen = true := by
  refine ⟨by simp [recvRun, recvStep, mainStep, recvInit],
    by simp [recvRun, recvStep, mainStep, recvInit, fopenWb], ?_⟩
  obtain ⟨-, -, hf, -⟩ := recvFailInv_run data size sched (recvFailInv_init flag)
  rw [hf]
  rfl

/-- C13: a token that passes the length check and the charset check is parsed whole by
`strtoul`, its value is at most 0xFFFF, and the conversion to the 16-bit argument of
`SendNecSignal` leaves it unchanged.  So no run of the script player and no interactive
session ever writes the `invalid hex format` or the `value exceeds 16 bits` diagnostic,
and every code passed to `SendNecSignal` is the parsed value of such a token. -/
theorem checked_token_parses_whole (dev : Nat → Bool) (file stdin : List Char) :
    (∀ tok, hexToken tok = true →
      (strtoul16 tok).2 = [] ∧ (strtoul16 tok).1 ≤ 0xFFFF ∧
        toUint16 (strtoul16 tok).1 = (strtoul16 tok).1) ∧
    (∀ e ∈ (runScript dev file).trace,
      e ≠ .log .formatError ∧ e ≠ .log .rangeError ∧
        ∀ c, e = .send c → ∃ tok, hexToken tok = true ∧ c = (strtoul16 tok).1) ∧
    (∀ e ∈ (runInteractive dev stdin).trace,
      e ≠ .log .formatError ∧ e ≠ .log .rangeError ∧
        ∀ c, e = .send c → ∃ tok, hexToken tok = true ∧ c = (strtoul16 tok).1) := by
  refine ⟨?_, scriptLoop_events_ok dev file 0 0, interactiveLoop_events_ok dev stdin 0⟩
  intro tok h
  obtain ⟨hv, he, -⟩ := strtoul16_token h
  refine ⟨he, by omega, ?_⟩
  unfold toUint16
  omega

/-- C13 (witness): the largest token, `FFFF`, is parsed whole to 0xFFFF and passed on
unchanged. -/
theorem checked_token_parses_whole_witness :
    hexToken "FFFF".toList = true ∧ (strtoul16 "FFFF".toList).2 = [] ∧
      (strtoul16 "FFFF".toList).1 ≤ 0xFFFF ∧
      toUint16 (strtoul16 "FFFF".toList).1 = (strtoul16 "FFFF".toList).1 :=
  ⟨by decide, (checked_token_parses_whole (fun _ => true) [] []).1 "FFFF".toList (by decide)⟩

/-- C16 (failing input): the script lines `1A2B ` (trailing blank) and `#wait` followed
by a carriage return.  Only the newline is removed from a line, so the first has length
5 and the second is not the directive: each aborts the run with the length error,
nothing is transmitted and no 1 s sleep is made, while the bare lines are accepted. -/
theorem script_trailing_whitespace_aborts (dev : Nat → Bool) :
    stripNewline "1A2B \n".toList = "1A2B ".toList ∧
      runScript dev "1A2B \n".toList = ⟨[.sleep 500000, .log .lengthError], [], 1, 0⟩ ∧
      runScript dev "#wait\r\n".toList = ⟨[.sleep 500000, .log .lengthError], [], 1, 0⟩ ∧
      runScript dev "1A2B\n".toList =
        ⟨[.sleep 500000, .send 0x1A2B, .log (if dev 0 then .sentCode 0x1A2B else .sendFailed)],
          [], 1, 0⟩ ∧
      runScript dev "#wait\n".toList = ⟨[.sleep 1000000], [], 1, 0⟩ := by
  have hv : (strtoul16 "1A2B".toList).1 = 0x1A2B := by decide
  refine ⟨by decide, ?_, ?_, ?_, ?_⟩
  · exact scriptLoop_bad dev 0 0 (b := "1A2B ".toList) [] (by decide) (by decide) (by decide)
      (by decide) (by decide)
  · exact scriptLoop_bad dev 0 0 (b := "#wait\r".toList) [] (by decide) (by decide) (by decide)
      (by decide) (by decide)
  · have h := scriptLoop_token dev 0 0 (l := "1A2B".toList) [] (by decide)
    rw [scriptLoop_none, hv] at h
    exact h
  · have h := scriptLoop_wait dev 0 0 []
    rw [scriptLoop_none] at h
    exact h

/-- C17: the time a script run sleeps.  For lines `p` that are `#wait`, `#wake` or code
lines, the run sleeps 1 s per `#wait`, 15 s per `#wake` and 500 ms per code line,
whether it ends at the end of the file or at a `#quit` line.  When an invalid line
follows `p`, the run has slept 500 ms more: the pacing sleep comes before the checks, so
the pass that rejects the line consists of the 500 ms sleep and the error message, and
nothing is transmitted for that line. -/
theorem script_total_sleep (dev : Nat → Bool) (p : List (List Char)) (b later rest : List Char)
    (hp : ∀ l ∈ p, l = "#wait".toList ∨ l = "#wake".toList ∨ hexToken l = true)
    (hb : textLine b = true)
    (hd : b ≠ "#quit".toList ∧ b ≠ "#wait".toList ∧ b ≠ "#wake".toList)
    (hbad : hexToken b = false) :
    sleepTotal (runScript dev (textFile p)).trace =
        1000000 * p.count "#wait".toList + 15000000 * p.count "#wake".toList +
          500000 * p.countP hexToken ∧
      sleepTotal (runScript dev (textFile p ++ ("#quit".toList ++ '\n' :: rest))).trace =
        1000000 * p.count "#wait".toList + 15000000 * p.count "#wake".toList +
          500000 * p.countP hexToken ∧
      sleepTotal (runScript dev (textFile p ++ (b ++ '\n' :: later))).trace =
        1000000 * p.count "#wait".toList + 15000000 * p.count "#wake".toList +
          500000 * (p.countP hexToken + 1) ∧
      sends (runScript dev (textFile p ++ (b ++ '\n' :: later))).trace =
        (p.filter hexToken).map (fun l => (strtoul16 l).1) ∧
      (∀ ln calls, (scriptLoop dev ln 0 calls (b ++ '\n' :: later)).trace =
        [.sleep 500000, .log (if b.length = 4 then .charsetError else .lengthError)]) := by
  obtain ⟨evs, h1, h2, h3⟩ := scriptLoop_good_lines dev p hp 0 0
  have hbad' := fun ln calls => scriptLoop_bad dev ln calls later hb hd.1 hd.2.1 hd.2.2 hbad
  unfold runScript
  refine ⟨?_, ?_, ?_, ?_, ?_⟩
  · have := h1 []
    rw [List.append_nil] at this
    rw [this, scriptLoop_none]
    simp [ScriptRun.emit, h2]
  · rw [h1, scriptLoop_quit]
    simp [ScriptRun.emit, h2]
  · rw [h1, hbad']
    simp [ScriptRun.emit, sleepTotal_append, h2, sleepTotal]
    omega
  · rw [h1, hbad']
    simp [ScriptRun.emit, sends_append, h3, sends]
  · intro ln calls
    rw [hbad']

/-- C17 (witness): the script `#wait`, `1A2B`, `xyz` sleeps 1 s, then 500 ms before the
transmission, then 500 ms before `xyz` is rejected: 2 s in all, one transmission. -/
theorem script_total_sleep_witness :
    sleepTotal (runScript (fun _ => true)
        (textFile ["#wait".toList, "1A2B".toList] ++ ("xyz".toList ++ '\n' :: []))).trace =
        2000000 ∧
      sends (runScript (fun _ => true)
        (textFile ["#wait".toList, "1A2B".toList] ++ ("xyz".toList ++ '\n' :: []))).trace =
        [0x1A2B] := by
  have h := script_total_sleep (fun _ => true) ["#wait".toList, "1A2B".toList] "xyz".toList
    [] [] (by decide) (by decide) (by decide) (by decide)
  have hv : (["#wait".toList, "1A2B".toList].filter hexToken).map
      (fun l => (strtoul16 l).1) = [0x1A2B] := by decide
  refine ⟨h.2.2.1.trans (by decide), ?_⟩
  rw [← hv]
  exact h.2.2.2.1

/-- C18: the interactive session reads through the 5-byte buffer: a read stores at
most 4 characters, and only the pass that transmits discards the rest of the line.  So
of a newline-terminated 4-character line rejected for a non-hex character the newline
stays unread; the next read takes it as an empty line.  The diagnostics for that one
input line are the charset error followed by one length message, without any call of
`SendNecSignal`, and then the loop goes on with the next line. -/
theorem interactive_rejected_line_leaves_newline (dev : Nat → Bool) (calls : Nat)
    (l rest : List Char) (hl : textLine l = true) (hlen : l.length = 4)
    (hx : l.all isxdigit = false) (hq : l ≠ "quit".toList) :
    (∀ s buf r, fgets MaxInputLength s = some (buf, r) → buf.length ≤ 4) ∧
      (∀ k stdin buf r, fgets MaxInputLength stdin = some (buf, r) →
        interactiveLoop dev k stdin =
          if stripNewline buf = "quit".toList then ⟨[.log .prompt], r⟩
          else if hexToken (stripNewline buf) = false then
            (interactiveLoop dev k r).emit
              [.log .prompt,
               .log (if (stripNewline buf).length = 4 then .charsetError else .lengthInfo)]
          else
            (interactiveLoop dev (k + 1) (flushLine r)).emit
              [.log .prompt, .log (.validInput (strtoul16 (stripNewline buf)).1),
               .send (strtoul16 (stripNewline buf)).1,
               .log (if dev k then .sent else .sendFailed)]) ∧
      fgets MaxInputLength (l ++ '\n' :: rest) = some (l, '\n' :: rest) ∧
      fgets MaxInputLength ('\n' :: rest) = some (['\n'], rest) ∧
      stripNewline ['\n'] = [] ∧
      interactiveLoop dev calls (l ++ '\n' :: rest) =
        (interactiveLoop dev calls rest).emit
          [.log .prompt, .log .charsetError, .log .prompt, .log .lengthInfo] := by
  refine ⟨fun s buf r h => fgets_buf_length_le h,
    fun k stdin buf r h => interactiveLoop_step dev k h, ?_, by simp [fgets, fgetsAux, MaxInputLength],
    by decide, interactiveLoop_nonhex dev calls rest hl hlen hx hq⟩
  have h := fgets5_long ('\n' :: rest) hl (by omega)
  rwa [List.take_of_length_le (by omega), List.drop_of_length_le (by omega),
    List.nil_append] at h

/-- C18 (witness): the input line `12G3` gets the charset error, then the length
message for the newline left behind, and nothing is transmitted. -/
theorem interactive_rejected_line_leaves_newline_witness :
    fgets MaxInputLength ("12G3".toList ++ '\n' :: []) = some ("12G3".toList, ['\n']) ∧
      interactiveLoop (fun _ => true) 0 ("12G3".toList ++ '\n' :: []) =
        (interactiveLoop (fun _ => true) 0 []).emit
          [.log .prompt, .log .charsetError, .log .prompt, .log .lengthInfo] :=
  ⟨(interactive_rejected_line_leaves_newline (fun _ => true) 0 "12G3".toList []
      (by decide) (by decide) (by decide) (by decide)).2.2.1,
    (interactive_rejected_line_leaves_newline (fun _ => true) 0 "12G3".toList []
      (by decide) (by decide) (by decide) (by decide)).2.2.2.2.2⟩

end IrUsb
